import Mathlib

/-!
# Verification of the connect-dots deterministic core

A shallow embedding, in Lean 4, of the deterministic model-merge and decay
engine of the `connect-dots` skill (files `scripts/_lib.py`,
`scripts/build_model.py`, `scripts/consent_mutations.py`), together with
theorems settling the testable properties of its specification.

Modelling conventions:
- Python dicts become association lists (`Item`) preserving insertion order,
  with Python dict semantics for update (`dset`), `setdefault`
  (`dsetdefault`) and `pop` (`dpop`).
- JSON values become the inductive `Value`; Python `None` is `Value.none`.
  Python floats are idealised as real numbers.
- Aware `datetime` objects become `DateTime` (seconds since the epoch plus a
  UTC offset in minutes); comparison and subtraction act on the instant, as
  for timezone-aware datetimes.  `datetime.fromisoformat` is modelled for
  the offset-carrying `YYYY-MM-DDTHH:MM:SS+HH:MM` shape produced by
  `isoformat(timespec="seconds")` (naive and fractional forms, which never
  occur on this code's own data, are treated as unparseable).
- The filesystem becomes a finite map from resolved absolute path strings to
  raw file contents; `Path.resolve` is modelled as lexical normalisation
  (no symlinks).
- The ambient wall clock read by `datetime.now` inside `parse_iso` is passed
  as an explicit `wall` argument, so that the embedding is deterministic.
- Raising (`SystemExit` / uncaught exceptions) before any write is modelled
  by returning `Except.error`; a run that returns `.error` performs no write.
-/

namespace ConnectDots

/-! ## Small string utilities -/

/-- Substring test on lists of characters: does `sub` occur inside `hay`?
Models the Python `in` operator on `str`. -/
def listContains (hay sub : List Char) : Bool :=
  match hay with
  | [] => sub.isEmpty
  | _ :: t => sub.isPrefixOf hay || listContains t sub

/-- Substring test on strings, modelling Python `sub in hay`. -/
def strContains (hay sub : String) : Bool :=
  listContains hay.toList sub.toList

/-- String order by code point, modelling Python `a < b` on `str`. -/
def strLtChars : List Char → List Char → Bool
  | [], [] => false
  | [], _ :: _ => true
  | _ :: _, [] => false
  | a :: as, b :: bs =>
    if a.toNat < b.toNat then true
    else if b.toNat < a.toNat then false
    else strLtChars as bs

/-- Python `a < b` on strings. -/
def pyStrLt (a b : String) : Bool :=
  strLtChars a.toList b.toList

/-- Python `s.lower()` (ASCII; the data this code handles is ASCII). -/
def toLowerStr (s : String) : String :=
  (s.toList.map Char.toLower).asString

/-- A character of Python's `str.strip()` default whitespace set. -/
def isStripSpace (c : Char) : Bool :=
  c = ' ' || c = '\t' || c = '\n' || c = '\r' || c = '\x0b' || c = '\x0c'

/-- Python `s.strip()`. -/
def trimStr (s : String) : String :=
  (((s.toList.dropWhile isStripSpace).reverse.dropWhile isStripSpace).reverse).asString

/-- Python `a.startswith(b)`. -/
def isPrefixOfStr (p s : String) : Bool :=
  p.toList.isPrefixOf s.toList

/-- `s.replace("Z", "+00:00")`. -/
def replaceZ (s : String) : String :=
  (s.toList.foldr (fun c acc => (if c = 'Z' then "+00:00".toList else [c]) ++ acc) []).asString

/-- Split a character list on a separator (keeping empty components, like
Python `str.split(sep)`). -/
def splitOnCharAux (sep : Char) (cur : List Char) : List Char → List (List Char)
  | [] => [cur.reverse]
  | c :: rest =>
    if c = sep then cur.reverse :: splitOnCharAux sep [] rest
    else splitOnCharAux sep (c :: cur) rest

/-- The `/`-separated components of a path string. -/
def splitPathComponents (s : String) : List String :=
  (splitOnCharAux '/' [] s.toList).map List.asString

/-- Split raw file contents into lines, each keeping its trailing newline,
as Python `readlines` does.  A final fragment without a newline is kept. -/
def splitLinesKeep (cur : List Char) : List Char → List (List Char)
  | [] => if cur.isEmpty then [] else [cur.reverse]
  | '\n' :: rest => ('\n' :: cur).reverse :: splitLinesKeep [] rest
  | c :: rest => splitLinesKeep (c :: cur) rest

/-- The lines of a file, as Python `f.readlines()` (each line keeps its
terminating newline). -/
def readlines (content : String) : List String :=
  (splitLinesKeep [] content.toList).map List.asString

/-! ## Path resolution

`(workspace / p).resolve()` is modelled lexically: split on `/`, drop empty
and `.` components, let `..` pop one component (staying at the root when
empty).  Symlinks are outside the model. -/

/-- Lexically normalise a list of path components. -/
def normComponents (acc : List String) : List String → List String
  | [] => acc.reverse
  | c :: rest =>
    if c = "" ∨ c = "." then normComponents acc rest
    else if c = ".." then normComponents (acc.drop 1) rest
    else normComponents (c :: acc) rest

/-- Absolute path string from components. -/
def joinAbs (comps : List String) : String :=
  "/" ++ String.intercalate "/" comps

/-- Model of `Path(s).resolve()` for an absolute path string `s`. -/
def resolveAbs (s : String) : String :=
  joinAbs (normComponents [] (splitPathComponents s))

/-- Model of `(Path(workspace) / p).resolve()`: if `p` is absolute it
replaces the base, otherwise it is joined onto it, then normalised. -/
def resolveUnder (workspace p : String) : String :=
  if isPrefixOfStr "/" p then resolveAbs p
  else resolveAbs (workspace ++ "/" ++ p)

/-! ## Datetimes -/

/-- A timezone-aware datetime: seconds since the Unix epoch (the instant)
plus a UTC offset in minutes (presentation only; comparisons use `epoch`). -/
structure DateTime where
  epoch : Int
  offsetMin : Int
deriving DecidableEq

/-- `days_from_civil` (Hinnant): days from 1970-01-01 to year/month/day. -/
def daysFromCivil (y m d : Int) : Int :=
  let y' := y - (if m ≤ 2 then 1 else 0)
  let era := Int.fdiv y' 400
  let yoe := y' - era * 400
  let doy := Int.fdiv (153 * (m + (if m > 2 then -3 else 9)) + 2) 5 + d - 1
  let doe := yoe * 365 + Int.fdiv yoe 4 - Int.fdiv yoe 100 + doy
  era * 146097 + doe - 719468

/-- `civil_from_days` (Hinnant): year/month/day from days since 1970-01-01. -/
def civilFromDays (z0 : Int) : Int × Int × Int :=
  let z := z0 + 719468
  let era := Int.fdiv z 146097
  let doe := z - era * 146097
  let yoe := Int.fdiv (doe - Int.fdiv doe 1460 + Int.fdiv doe 36524 - Int.fdiv doe 146096) 365
  let y := yoe + era * 400
  let doy := doe - (365 * yoe + Int.fdiv yoe 4 - Int.fdiv yoe 100)
  let mp := Int.fdiv (5 * doy + 2) 153
  let d := doy - Int.fdiv (153 * mp + 2) 5 + 1
  let m := mp + (if mp < 10 then 3 else -9)
  (y + (if m ≤ 2 then 1 else 0), m, d)

/-- Zero-pad a nonnegative integer to at least `w` digits. -/
def padInt (w : Nat) (n : Int) : String :=
  let s := toString n.toNat
  (List.replicate (w - s.length) '0').asString ++ s

/-- Model of `dt.isoformat(timespec="seconds")` for an aware datetime:
`YYYY-MM-DDTHH:MM:SS+HH:MM`. -/
def isoformat (dt : DateTime) : String :=
  let localSecs := dt.epoch + dt.offsetMin * 60
  let days := Int.fdiv localSecs 86400
  let sod := localSecs - days * 86400
  let ymd := civilFromDays days
  let hh := Int.fdiv sod 3600
  let mi := Int.fdiv (sod - hh * 3600) 60
  let ss := sod - hh * 3600 - mi * 60
  let sign := if dt.offsetMin < 0 then "-" else "+"
  let a := if dt.offsetMin < 0 then -dt.offsetMin else dt.offsetMin
  padInt 4 ymd.1 ++ "-" ++ padInt 2 ymd.2.1 ++ "-" ++ padInt 2 ymd.2.2 ++ "T"
    ++ padInt 2 hh ++ ":" ++ padInt 2 mi ++ ":" ++ padInt 2 ss
    ++ sign ++ padInt 2 (Int.fdiv a 60) ++ ":" ++ padInt 2 (a - Int.fdiv a 60 * 60)

/-- Read exactly `k` digits from the front of a character list. -/
def readDigits (k : Nat) (cs : List Char) : Option (Nat × List Char) :=
  match k with
  | 0 => some (0, cs)
  | k + 1 =>
    match cs with
    | [] => none
    | c :: rest =>
      if c.isDigit then
        match readDigits k rest with
        | some (n, rest') => some ((c.toNat - 48) * 10 ^ k + n, rest')
        | none => none
      else none

/-- Expect a literal character at the front of a character list. -/
def expectChar (c : Char) (cs : List Char) : Option (List Char) :=
  match cs with
  | [] => none
  | c' :: rest => if c' = c then some rest else none

/-- Parse `NN-NN` style pair: `k₁` digits, a literal `sep`, `k₂` digits. -/
def readPair (k₁ : Nat) (sep : Char) (k₂ : Nat) (cs : List Char) :
    Option (Nat × Nat × List Char) :=
  match readDigits k₁ cs with
  | none => none
  | some (a, cs) =>
    match expectChar sep cs with
    | none => none
    | some cs =>
      match readDigits k₂ cs with
      | none => none
      | some (b, cs) => some (a, b, cs)

/-- Parse the `YYYY-MM-DD` date part; returns `(y, mo, d, rest)`. -/
def parseDatePart (cs : List Char) : Option (Nat × Nat × Nat × List Char) :=
  match readPair 4 '-' 2 cs with
  | none => none
  | some (y, mo, cs) =>
    match expectChar '-' cs with
    | none => none
    | some cs =>
      match readDigits 2 cs with
      | none => none
      | some (d, cs) => some (y, mo, d, cs)

/-- Parse the `HH:MM:SS` time part; returns `(h, mi, ss, rest)`. -/
def parseTimePart (cs : List Char) : Option (Nat × Nat × Nat × List Char) :=
  match readPair 2 ':' 2 cs with
  | none => none
  | some (h, mi, cs) =>
    match expectChar ':' cs with
    | none => none
    | some cs =>
      match readDigits 2 cs with
      | none => none
      | some (ss, cs) => some (h, mi, ss, cs)

/-- Parse the trailing `±HH:MM` UTC offset, which must end the string;
returns the offset in minutes. -/
def parseOffsetPart (cs : List Char) : Option Int :=
  match cs with
  | [] => none
  | sg :: rest =>
    if sg = '+' ∨ sg = '-' then
      match readPair 2 ':' 2 rest with
      | none => none
      | some (oh, om, rest') =>
        if rest'.isEmpty ∧ oh ≤ 23 ∧ om ≤ 59 then
          some ((if sg = '-' then -1 else 1) * ((oh : Int) * 60 + (om : Int)))
        else none
    else none

/-- Field-range validation performed by `datetime.fromisoformat`. -/
def validFields (mo d h mi ss : Nat) : Bool :=
  decide (1 ≤ mo ∧ mo ≤ 12 ∧ 1 ≤ d ∧ d ≤ 31 ∧ h ≤ 23 ∧ mi ≤ 59 ∧ ss ≤ 59)

/-- Model of `datetime.fromisoformat` restricted to the aware
`YYYY-MM-DDTHH:MM:SS±HH:MM` shape (the shape this code itself produces).
Anything else — in particular garbage strings — fails. -/
def fromisoformat (s : String) : Option DateTime :=
  match parseDatePart s.toList with
  | none => none
  | some (y, mo, d, cs) =>
    match expectChar 'T' cs with
    | none => none
    | some cs =>
      match parseTimePart cs with
      | none => none
      | some (h, mi, ss, cs) =>
        match parseOffsetPart cs with
        | none => none
        | some off =>
          if validFields mo d h mi ss then
            some ⟨daysFromCivil y mo d * 86400 + (h : Int) * 3600 + (mi : Int) * 60
                    + (ss : Int) - off * 60, off⟩
          else none

/-- `dt + timedelta(days = k)`: shifts the instant, keeps the offset. -/
def addDays (dt : DateTime) (k : Int) : DateTime :=
  ⟨dt.epoch + 86400 * k, dt.offsetMin⟩

/-- Keep the newer of an optional accumulator and a candidate datetime,
preferring the accumulator on ties: `if acc is None or dt > acc: acc = dt`
expressed as a function. -/
def optMax (a b : Option DateTime) : Option DateTime :=
  match a, b with
  | Option.none, b => b
  | a, Option.none => a
  | some x, some y => if x.epoch < y.epoch then some y else some x

/-! ## JSON-like values and Python dicts -/

/-- A JSON-ish Python value.  Floats are idealised as real numbers;
`Value.none` is Python `None`. -/
inductive Value where
  | none : Value
  | str (s : String) : Value
  | num (x : ℝ) : Value
  | bool (b : Bool) : Value
  | list (xs : List Value) : Value
  | dict (fields : List (String × Value)) : Value

/-- A Python dict with string keys: an association list preserving
insertion order (keys are unique in every dict this code builds). -/
abbrev Item := List (String × Value)

/-- Dict lookup, `d[k]` / `d.get(k)` without the `None` default. -/
def dget (it : Item) (k : String) : Option Value :=
  match it with
  | [] => Option.none
  | (k', v) :: rest => if k' = k then some v else dget rest k

/-- `d.get(k, default)`. -/
def dgetD (it : Item) (k : String) (d : Value) : Value :=
  (dget it k).getD d

/-- `d.get(k)`: `None` when the key is absent. -/
def getV (it : Item) (k : String) : Value :=
  dgetD it k .none

/-- `d[k] = v`: update in place (keeping the key's position) or append. -/
def dset (it : Item) (k : String) (v : Value) : Item :=
  match it with
  | [] => [(k, v)]
  | (k', v') :: rest => if k' = k then (k, v) :: rest else (k', v') :: dset rest k v

/-- `d.setdefault(k, v)`: insert only when the key is absent. -/
def dsetdefault (it : Item) (k : String) (v : Value) : Item :=
  match dget it k with
  | some _ => it
  | Option.none => it ++ [(k, v)]

/-- `d.pop(k, default)` (the dict after the pop; the popped value is read
separately with `dgetD`). -/
def dpop (it : Item) (k : String) : Item :=
  it.filter (fun p => p.1 ≠ k)

/-- Python truthiness (`bool(v)`).  For numbers this is `v ≠ 0`, decided
classically since the payload is an idealised real. -/
noncomputable def truthy : Value → Bool
  | .none => false
  | .str s => !s.isEmpty
  | .num x => if x = 0 then false else true
  | .bool b => b
  | .list xs => !xs.isEmpty
  | .dict fields => !fields.isEmpty

/-- Python `a or b`: `a` when truthy, else `b`. -/
noncomputable def pyOr (a b : Value) : Value :=
  if truthy a then a else b

/-- Read a value in a context where the code treats it as a `str`.
Non-string values in such positions would raise in Python; they do not
occur on this code's own data and are mapped to `""`. -/
def valueStr : Value → String
  | .str s => s
  | _ => ""

/-- `float(v)` for the numeric values this code stores (a non-numeric,
truthy value here would raise in Python and does not occur). -/
def pyFloat : Value → ℝ
  | .num x => x
  | .bool b => if b then 1 else 0
  | _ => 0

/-- `int(v)` for the numeric values this code stores: truncation toward
zero for floats. -/
noncomputable def pyInt : Value → Int
  | .num x => if x < 0 then -⌊-x⌋ else ⌊x⌋
  | .bool b => if b then 1 else 0
  | _ => 0

/-- The evidence list of an item: `it.get("evidence") or []`, with each
entry a dict (as the schema requires). -/
def getEvidence (it : Item) : List Item :=
  match dget it "evidence" with
  | some (.list xs) =>
    xs.filterMap (fun v => match v with | .dict d => some d | _ => Option.none)
  | _ => []

/-- `it.get("status") == s` for a string status. -/
def statusIs (it : Item) (s : String) : Bool :=
  match dget it "status" with
  | some (.str s') => s' = s
  | _ => false

/-- Generic association-list update with Python-dict semantics (update in
place, append when new). -/
def assocUpd {α : Type} (m : List (String × α)) (k : String) (v : α) :
    List (String × α) :=
  match m with
  | [] => [(k, v)]
  | (k', v') :: rest => if k' = k then (k, v) :: rest else (k', v') :: assocUpd rest k v

/-! ## `_lib.py` -/

/-- `clamp(x, lo, hi)` from `_lib.py`. -/
noncomputable def clamp (x lo hi : ℝ) : ℝ :=
  max lo (min hi x)

/-- `parse_iso(ts)` from `_lib.py`: best-effort ISO parse, falling back to
the current wall-clock time (made an explicit `wall` argument) when the
string does not parse. -/
def parse_iso (ts : String) (wall : DateTime) : DateTime :=
  (fromisoformat (replaceZ ts)).getD wall

/-- Inner loop of `matches_do_not_store`: `t` is the lowercased text. -/
noncomputable def dnsLoop (t : String) : List Item → Option Item
  | [] => Option.none
  | rule :: rest =>
    let pat := toLowerStr (valueStr (pyOr (getV rule "pattern") (.str "")))
    if pat = "" then dnsLoop t rest
    else if strContains t pat then some rule
    else dnsLoop t rest

/-- `matches_do_not_store(text, dns)` from `_lib.py`: the first rule whose
(lowercased) pattern occurs in the lowercased text, skipping empty
patterns. -/
noncomputable def matches_do_not_store (text : String) (dns : List Item) : Option Item :=
  dnsLoop (toLowerStr text) dns

/-- The `best` accumulator loop of `compute_recency_days`: the newest
parseable (with wall-clock fallback) timestamp among the evidence.  The
update `if best is None or dt > best: best = dt` is `optMax best (some dt)`. -/
noncomputable def bestTs (wall : DateTime) : List Item → Option DateTime → Option DateTime
  | [], best => best
  | ev :: rest, best =>
    let ts := getV ev "ts"
    if ¬ truthy ts then bestTs wall rest best
    else
      let dt := parse_iso (valueStr ts) wall
      bestTs wall rest (optMax best (some dt))

/-- `compute_recency_days(evidence, now)` from `_lib.py`. -/
noncomputable def compute_recency_days (evidence : List Item) (now wall : DateTime) : ℝ :=
  match bestTs wall evidence Option.none with
  | Option.none => 9999.0
  | some best => max 0 (((now.epoch - best.epoch : Int) : ℝ) / 86400)

/-- `confidence_formula(...)` from `_lib.py`. -/
noncomputable def confidence_formula (evidence : List Item)
    (user_confirmed conflicts : Bool) (now wall : DateTime) : ℝ :=
  let sources := evidence.length
  let sources_cap := min 5 sources
  let rec_days := compute_recency_days evidence now wall
  let recency_score := if rec_days < 9999 then Real.exp (-rec_days / 7) else 0
  let agreement : ℝ := if 2 ≤ sources then 0.15 else 0
  let base : ℝ := 0.20
  let count_score : ℝ := 0.12 * sources_cap
  let rec_score : ℝ := 0.25 * recency_score
  let confirm_bonus : ℝ := if user_confirmed then 0.20 else 0
  let conflict_pen : ℝ := if conflicts then 0.25 else 0
  clamp (base + count_score + rec_score + agreement + confirm_bonus - conflict_pen) 0.05 0.99

/-- The regular expression `^L(\d+)-L(\d+)$`. -/
def matchLinesRe (s : String) : Option (Nat × Nat) :=
  match s.toList with
  | 'L' :: rest =>
    let sp1 := rest.span (fun c => c.isDigit)
    if sp1.1.isEmpty then Option.none
    else
      match sp1.2 with
      | '-' :: 'L' :: rest2 =>
        let sp2 := rest2.span (fun c => c.isDigit)
        if sp2.1.isEmpty ∨ ¬ sp2.2.isEmpty then Option.none
        else some (sp1.1.foldl (fun a c => a * 10 + (c.toNat - 48)) 0,
                   sp2.1.foldl (fun a c => a * 10 + (c.toNat - 48)) 0)
      | _ => Option.none
  | _ => Option.none

/-- `parse_lines_spec(lines)` from `_lib.py`: both `raise` points become
errors. -/
def parse_lines_spec (lines : String) : Except String (Nat × Nat) :=
  match matchLinesRe lines with
  | Option.none => .error ("bad lines spec: " ++ lines)
  | some (a, b) =>
    if a = 0 ∨ b < a then .error ("bad lines range: " ++ lines)
    else .ok (a, b)

/-- The filesystem: a finite map from resolved absolute path strings to raw
file contents. -/
abbrev FS := List (String × String)

/-- One iteration of the `verify_evidence_sources` loop; `ws` is the
resolved workspace root. -/
noncomputable def verifyEntry (ws workspace : String) (fs : FS) (ev : Item) :
    Except String Unit :=
  let p := getV ev "path"
  if ¬ truthy p then .error "evidence missing path"
  else
    let full := resolveUnder workspace (valueStr p)
    if ¬ isPrefixOfStr ws full then .error ("evidence path escapes workspace: " ++ valueStr p)
    else
      match fs.lookup full with
      | Option.none => .error ("evidence file not found: " ++ valueStr p)
      | some content =>
        match parse_lines_spec (valueStr (dgetD ev "lines" (.str ""))) with
        | .error e => .error e
        | .ok (a, b) =>
          let quote := trimStr (valueStr (pyOr (getV ev "quote") (.str "")))
          if quote = "" then .error "evidence quote missing"
          else
            let lns := readlines content
            if lns.length < b then .error "evidence line range out of bounds"
            else
              let snippet := String.join (List.take (b - (a - 1)) (List.drop (a - 1) lns))
              if ¬ strContains snippet quote then
                .error "evidence quote not found in cited range"
              else .ok ()

/-- The loop of `verify_evidence_sources` over the evidence entries. -/
noncomputable def verifyLoop (ws workspace : String) (fs : FS) : List Item → Except String Unit
  | [] => .ok ()
  | ev :: rest =>
    match verifyEntry ws workspace fs ev with
    | .error e => .error e
    | .ok _ => verifyLoop ws workspace fs rest

/-- `verify_evidence_sources(evidence, workspace)` from `_lib.py`, over the
modelled filesystem `fs`. -/
noncomputable def verify_evidence_sources (evidence : List Item) (workspace : String)
    (fs : FS) : Except String Unit :=
  verifyLoop (resolveAbs workspace) workspace fs evidence

/-- The persisted model document (`meta` is carried opaquely and never
touched by this core, so it is omitted). -/
structure Model where
  scope : String
  updatedAt : String
  confirmed_facts : List Item
  hypotheses : List Item
  stale_items : List Item
  open_loops : List Item
  candidate_moves : List Item
  do_not_store : List Item

/-- `ensure_model_skeleton(scope)` from `_lib.py`. -/
def ensure_model_skeleton (scope : String) (now : DateTime) : Model :=
  { scope := scope, updatedAt := isoformat now, confirmed_facts := [], hypotheses := [],
    stale_items := [], open_loops := [], candidate_moves := [], do_not_store := [] }

/-- `index_by_id(items)` from `_lib.py`: id-keyed dict, last occurrence
winning (ids are strings on this code's data; falsy ids are skipped). -/
def index_by_id (items : List Item) : List (String × Item) :=
  items.foldl (fun out it =>
    match dget it "id" with
    | some (.str s) => if s = "" then out else assocUpd out s it
    | _ => out) []

/-- `normalize_item_common(...)` from `_lib.py`. -/
noncomputable def normalize_item_common (item : Item) (now_dt : DateTime)
    (default_ttl_days : Int) (keep_first_seen : Value) : Item :=
  let out := item
  let out := dsetdefault out "first_seen" (pyOr keep_first_seen (.str (isoformat now_dt)))
  let out := dset out "last_seen" (.str (isoformat now_dt))
  let ttl_days := pyInt (pyOr (getV out "ttl_days") (.num default_ttl_days))
  let ttl_days := max 1 ttl_days
  let out := dpop out "ttl_days"
  let out := dset out "expires_at" (.str (isoformat (addDays now_dt ttl_days)))
  let out := dsetdefault out "status" (.str "active")
  out

/-- `drop_retracted(items)` from `_lib.py`. -/
def drop_retracted (items : List Item) : List Item :=
  items.filter (fun it => ¬ statusIs it "retracted")

/-! ## `build_model.py` -/

/-- The ids mentioned by a proposal section (`{p.get("id") for p in proposed}`,
restricted to the string ids this code's data carries). -/
def proposedIds (proposed : List Item) : List String :=
  proposed.filterMap (fun p =>
    match dget p "id" with
    | some (.str s) => some s
    | _ => Option.none)

/-- The proposal-driven half of `_merge_list`: one merged, `_refreshed`
entry per proposal item with a truthy id, in proposal order. -/
noncomputable def mergeProposed (curIdx : List (String × Item)) : List Item → List Item
  | [] => []
  | p :: rest =>
    match dget p "id" with
    | some (.str pid) =>
      if pid = "" then mergeProposed curIdx rest
      else
        let existing := curIdx.lookup pid
        let keepFirst := match existing with
          | some e => getV e "first_seen"
          | Option.none => Value.none
        let keepDomain := match existing with
          | some e => getV e "domain"
          | Option.none => Value.none
        let merged := p
        let merged :=
          if truthy keepDomain ∧ ¬ truthy (getV merged "domain") then
            dset merged "domain" keepDomain
          else merged
        let merged := dset merged "_keep_first_seen" keepFirst
        let merged := dset merged "_refreshed" (.bool true)
        merged :: mergeProposed curIdx rest
    | _ => mergeProposed curIdx rest

/-- `_merge_list(current, proposed, section)` from `build_model.py`. -/
noncomputable def _merge_list (current proposed : List Item) : List Item :=
  let curIdx := index_by_id current
  let out := mergeProposed curIdx proposed
  let pids := proposedIds proposed
  out ++ (current.filterMap (fun it =>
    match dget it "id" with
    | some (.str s) =>
      if s = "" ∨ s ∈ pids then Option.none
      else some (dset it "_refreshed" (.bool false))
    | _ => Option.none))

/-- The statement-or-fact text used by the do-not-store filter:
`it.get("statement") or it.get("fact") or ""`. -/
noncomputable def stmtText (it : Item) : String :=
  valueStr (pyOr (getV it "statement") (pyOr (getV it "fact") (.str "")))

/-- The per-item normalisation of `process_section` (`build_model.py`
lines 171–217), after the markers have been popped. -/
noncomputable def normalize_for_section (sectionName : String) (now_dt : DateTime)
    (default_ttl_days : Int) (it : Item) (keepFirst : Value) (refreshed : Bool) : Item :=
  let evidence := getEvidence it
  if sectionName = "confirmed_facts" then
    let out := it
    let out := dsetdefault out "confidence" (.num 0.99)
    let out := dsetdefault out "first_seen"
      (pyOr keepFirst (pyOr (getV out "first_seen") (.str (isoformat now_dt))))
    let out :=
      if refreshed then
        let out := dset out "last_seen" (.str (isoformat now_dt))
        let ttl_days := pyInt (pyOr (getV out "ttl_days") (.num default_ttl_days))
        let out := dpop out "ttl_days"
        dset out "expires_at" (.str (isoformat (addDays now_dt (max 1 ttl_days))))
      else
        let out := dsetdefault out "last_seen"
          (pyOr (getV out "last_seen") (.str (isoformat now_dt)))
        dsetdefault out "expires_at"
          (pyOr (getV out "expires_at") (.str "9999-12-31T00:00:00+00:00"))
    let out := dsetdefault out "last_confirmed"
      (pyOr (getV out "last_confirmed")
        (pyOr (getV out "last_seen") (.str (isoformat now_dt))))
    dsetdefault out "status" (.str "active")
  else if refreshed then
    let out := normalize_item_common it now_dt default_ttl_days keepFirst
    let out := dset out "confidence"
      (.num (confidence_formula evidence (truthy (getV it "user_confirmed"))
        (truthy (getV it "conflicts")) now_dt now_dt))
    dpop (dpop out "user_confirmed") "conflicts"
  else
    let out := it
    let out := dsetdefault out "first_seen"
      (pyOr keepFirst (pyOr (getV out "first_seen") (.str (isoformat now_dt))))
    let out := dsetdefault out "last_seen"
      (pyOr (getV out "last_seen") (.str (isoformat now_dt)))
    let out := dsetdefault out "expires_at"
      (pyOr (getV out "expires_at") (.str (isoformat now_dt)))
    let out := dsetdefault out "status" (pyOr (getV out "status") (.str "active"))
    dsetdefault out "confidence" (.num (pyFloat (pyOr (getV out "confidence") (.num 0.2))))

/-- One iteration of the `process_section` loop: `none` when the item is
silently dropped by the do-not-store filter, otherwise the normalised item
(or the evidence-verification error). -/
noncomputable def process_item (fs : FS) (workspace : String) (now_dt : DateTime)
    (dns : List Item) (verifySources : Bool) (sectionName : String)
    (default_ttl_days : Int) (it : Item) : Except String (Option Item) :=
  match matches_do_not_store (stmtText it) dns with
  | some _ => .ok Option.none
  | Option.none =>
    let evidence := getEvidence it
    match (if verifySources then verify_evidence_sources evidence workspace fs else .ok ()) with
    | .error e => .error e
    | .ok _ =>
      let keepFirst := dgetD it "_keep_first_seen" Value.none
      let refreshed := truthy (dgetD it "_refreshed" (.bool false))
      let it := dpop (dpop it "_keep_first_seen") "_refreshed"
      .ok (some (normalize_for_section sectionName now_dt default_ttl_days it keepFirst refreshed))

/-- `process_section(section, default_ttl_days)` from `build_model.py`. -/
noncomputable def process_section (fs : FS) (workspace : String) (now_dt : DateTime)
    (dns : List Item) (verifySources : Bool) (sectionName : String)
    (default_ttl_days : Int) : List Item → Except String (List Item)
  | [] => .ok []
  | it :: rest =>
    match process_item fs workspace now_dt dns verifySources sectionName default_ttl_days it with
    | .error e => .error e
    | .ok Option.none => process_section fs workspace now_dt dns verifySources sectionName default_ttl_days rest
    | .ok (some out) =>
      match process_section fs workspace now_dt dns verifySources sectionName default_ttl_days rest with
      | .error e => .error e
      | .ok outs => .ok (out :: outs)

/-- The per-item result of `process_section` on a run where evidence
verification succeeds: `none` when the item is dropped by the
do-not-store filter, otherwise the normalised item. -/
noncomputable def process_pure (fs : FS) (workspace : String) (now_dt : DateTime)
    (dns : List Item) (verifySources : Bool) (sectionName : String)
    (default_ttl_days : Int) (it : Item) : Option Item :=
  match process_item fs workspace now_dt dns verifySources sectionName default_ttl_days it with
  | .ok o => o
  | .error _ => Option.none

/-- `is_expired(it)` from `build_model.py`: any exception (missing key,
non-string value, unparseable timestamp, naive datetime) yields `False`. -/
def is_expired (now_dt : DateTime) (it : Item) : Bool :=
  match dget it "expires_at" with
  | some (.str s) =>
    match fromisoformat (replaceZ s) with
    | some exp => exp.epoch < now_dt.epoch
    | Option.none => false
  | _ => false

/-- The stale copy of an expired item: status forced to `"stale"`,
confidence capped at `min(current or 0.0, 0.35)` (`build_model.py`
lines 250–252). -/
noncomputable def staleVersion (it : Item) : Item :=
  let it2 := dset it "status" (.str "stale")
  dset it2 "confidence"
    (.num (min (pyFloat (pyOr (getV it2 "confidence") (.num 0.0))) 0.35))

/-- `move_to_stale(section)` from `build_model.py`, as a pure function
returning the kept items and the entries appended to `stale` (in order). -/
noncomputable def move_to_stale (now_dt : DateTime) : List Item → List Item × List Item
  | [] => ([], [])
  | it :: rest =>
    let (keep, stale) := move_to_stale now_dt rest
    if statusIs it "retracted" then
      (keep, dset it "status" (.str "retracted") :: stale)
    else if is_expired now_dt it then
      (keep, staleVersion it :: stale)
    else (it :: keep, stale)

/-- The kept part of a decayed section: neither retracted nor expired. -/
noncomputable def decayKeep (now_dt : DateTime) (items : List Item) : List Item :=
  items.filter (fun it => !(statusIs it "retracted") && !(is_expired now_dt it))

/-- The entries a decayed section appends to `stale`, in order. -/
noncomputable def staleAdds (now_dt : DateTime) (items : List Item) : List Item :=
  items.filterMap (fun it =>
    if statusIs it "retracted" then some (dset it "status" (.str "retracted"))
    else if is_expired now_dt it then some (staleVersion it)
    else Option.none)

/-- The `last_seen` string used by the stale dedupe:
`it.get("last_seen") or ""`. -/
noncomputable def lastSeenStr (it : Item) : String :=
  valueStr (pyOr (getV it "last_seen") (.str ""))

/-- One step of the stale dedupe: record `it` under its id, replacing an
existing entry only when `it` has the strictly greater `last_seen` string;
entries without a truthy string id are skipped. -/
noncomputable def dedupeStep (by_id : List (String × Item)) (it : Item) :
    List (String × Item) :=
  match dget it "id" with
  | some (.str s) =>
    if s = "" then by_id
    else
      match by_id.lookup s with
      | Option.none => assocUpd by_id s it
      | some cur =>
        if pyStrLt (lastSeenStr cur) (lastSeenStr it) then assocUpd by_id s it else by_id
  | _ => by_id

/-- The stale dedupe of `build_model.py` (lines 262–270): keep one entry per
truthy id, preferring the strictly greater `last_seen` string, first
insertion position retained. -/
noncomputable def dedupeStale (stale : List Item) : List Item :=
  (stale.foldl dedupeStep []).map Prod.snd

/-- The decay pass of `build_model.py` (lines 228–270): move expired and
retracted items of the three non-fact sections into `stale_items`, then
dedupe `stale_items` by id. -/
noncomputable def decay_pass (now_dt : DateTime) (hy ol cm stale0 : List Item) :
    List Item × List Item × List Item × List Item :=
  let hyR := move_to_stale now_dt hy
  let olR := move_to_stale now_dt ol
  let cmR := move_to_stale now_dt cm
  (hyR.1, olR.1, cmR.1, dedupeStale (stale0 ++ hyR.2 ++ olR.2 ++ cmR.2))

/-- A proposal document (`scope`, `generatedAt`, `items{...}`). -/
structure Proposal where
  scope : String
  generatedAt : String
  confirmed_facts : List Item
  hypotheses : List Item
  open_loops : List Item
  candidate_moves : List Item

/-- `main()` of `build_model.py` after argument parsing and input loading:
the merge pipeline from (previous model, proposal) to the persisted model.
The two Schema Gate calls (`validate_or_die`) check external JSON schema
files that are not part of this core; they either pass or abort the run
with no write, and are not modelled further.  A `.error` result models an
aborted run: the model file is not written. -/
noncomputable def buildModel (fs : FS) (workspace : String) (now_dt : DateTime)
    (scope : String) (prevModel : Option Model) (proposal : Proposal)
    (verifySources : Bool) : Except String Model :=
  if proposal.scope ≠ scope then
    .error ("proposal scope mismatch: expected " ++ scope ++ ", got " ++ proposal.scope)
  else
    let model := prevModel.getD (ensure_model_skeleton scope now_dt)
    let dns := model.do_not_store
    let cf := _merge_list model.confirmed_facts proposal.confirmed_facts
    let hy := _merge_list model.hypotheses proposal.hypotheses
    let ol := _merge_list model.open_loops proposal.open_loops
    let cm := _merge_list model.candidate_moves proposal.candidate_moves
    match process_section fs workspace now_dt dns verifySources "confirmed_facts" 365 cf with
    | .error e => .error e
    | .ok cfP =>
      match process_section fs workspace now_dt dns verifySources "hypotheses" 21 hy with
      | .error e => .error e
      | .ok hyP =>
        match process_section fs workspace now_dt dns verifySources "open_loops" 14 ol with
        | .error e => .error e
        | .ok olP =>
          match process_section fs workspace now_dt dns verifySources "candidate_moves" 7 cm with
          | .error e => .error e
          | .ok cmP =>
            let d := decay_pass now_dt hyP olP cmP model.stale_items
            .ok { scope := model.scope, updatedAt := isoformat now_dt,
                  confirmed_facts := cfP, hypotheses := d.1,
                  stale_items := d.2.2.2, open_loops := d.2.1,
                  candidate_moves := d.2.2.1, do_not_store := dns }

/-! ## `consent_mutations.py` -/

/-- `it.get("id") == item_id` for a string id. -/
def idIs (it : Item) (id : String) : Bool :=
  match dget it "id" with
  | some (.str s) => s = id
  | _ => false

/-- Truthiness of an optional CLI string argument (`if not args.x`). -/
def argTruthy (o : Option String) : Bool :=
  match o with
  | Option.none => false
  | some s => !s.isEmpty

/-- `_find_item(model, item_id)` from `consent_mutations.py`: first item
with the given id, scanning hypotheses, stale_items, open_loops,
candidate_moves, confirmed_facts in that order. -/
def _find_item (m : Model) (id : String) : Option Item :=
  (m.hypotheses.find? (idIs · id)) <|> (m.stale_items.find? (idIs · id))
    <|> (m.open_loops.find? (idIs · id)) <|> (m.candidate_moves.find? (idIs · id))
    <|> (m.confirmed_facts.find? (idIs · id))

/-- Set `status = "retracted"` on the first item with the given id;
`none` when the list has no such item. -/
def retractFirst (id : String) : List Item → Option (List Item)
  | [] => Option.none
  | it :: rest =>
    if idIs it id then some (dset it "status" (.str "retracted") :: rest)
    else (retractFirst id rest).map (it :: ·)

/-- The in-place `it["status"] = "retracted"` of deny/forget-by-id, applied
to the first match across the `_find_item` section order. -/
def retractById (m : Model) (id : String) : Option Model :=
  match retractFirst id m.hypotheses with
  | some l => some { m with hypotheses := l }
  | Option.none =>
    match retractFirst id m.stale_items with
    | some l => some { m with stale_items := l }
    | Option.none =>
      match retractFirst id m.open_loops with
      | some l => some { m with open_loops := l }
      | Option.none =>
        match retractFirst id m.candidate_moves with
        | some l => some { m with candidate_moves := l }
        | Option.none =>
          match retractFirst id m.confirmed_facts with
          | some l => some { m with confirmed_facts := l }
          | Option.none => Option.none

/-- Forget-by-substring over one section: retract every item whose
statement-or-fact text contains `needle` case-insensitively; also report
whether anything matched. -/
noncomputable def retractMatches (needle : String) : List Item → List Item × Bool
  | [] => ([], false)
  | it :: rest =>
    let r := retractMatches needle rest
    if strContains (toLowerStr (stmtText it)) needle then
      (dset it "status" (.str "retracted") :: r.1, true)
    else (it :: r.1, r.2)

/-- A consent operation as invoked on the command line (absent flags are
`Option.none`). -/
inductive ConsentOp where
  | dontStore (pattern domain note : Option String)
  | deny (id : Option String)
  | forget (id mtch : Option String)
  | confirm (id fact value : Option String)

/-- The `drop_retracted` step applied to the three active non-fact lists
before persistence (`consent_mutations.py` lines 146–150). -/
def consentFinish (m : Model) : Model :=
  { m with hypotheses := drop_retracted m.hypotheses,
           open_loops := drop_retracted m.open_loops,
           candidate_moves := drop_retracted m.candidate_moves }

/-- `main()` of `consent_mutations.py` after the model has been loaded: the
operation dispatch, followed by `drop_retracted` on the active lists.  The
final `validate_or_die` checks an external JSON schema file; it either
passes or aborts with no write, and is not modelled further.  A `.error`
result models `SystemExit` before the atomic write: the persisted model
file is left completely unchanged. -/
noncomputable def consentMain (model : Model) (nowIso : String) (op : ConsentOp) :
    Except String Model :=
  let out := { model with updatedAt := nowIso }
  match op with
  | .dontStore pattern domain note =>
    if ¬ argTruthy pattern then .error "dont-store requires --pattern"
    else
      let rule : Item := [("pattern", .str (pattern.getD "")), ("created_at", .str nowIso)]
      let rule := if argTruthy domain then rule ++ [("domain", .str (domain.getD ""))] else rule
      let rule := if argTruthy note then rule ++ [("note", .str (note.getD ""))] else rule
      .ok (consentFinish { out with do_not_store := out.do_not_store ++ [rule] })
  | .deny id =>
    if ¬ argTruthy id then .error "deny requires --id"
    else
      match retractById out (id.getD "") with
      | Option.none => .error ("id not found: " ++ id.getD "")
      | some out2 => .ok (consentFinish out2)
  | .forget id mtch =>
    if ¬ argTruthy id ∧ ¬ argTruthy mtch then .error "forget requires --id or --match"
    else if argTruthy id then
      match retractById out (id.getD "") with
      | Option.none => .error ("id not found: " ++ id.getD "")
      | some out2 => .ok (consentFinish out2)
    else
      let needle := toLowerStr (mtch.getD "")
      let hyR := retractMatches needle out.hypotheses
      let stR := retractMatches needle out.stale_items
      let olR := retractMatches needle out.open_loops
      let cmR := retractMatches needle out.candidate_moves
      let cfR := retractMatches needle out.confirmed_facts
      if ¬ (hyR.2 ∨ stR.2 ∨ olR.2 ∨ cmR.2 ∨ cfR.2) then
        .error ("no matches for: " ++ mtch.getD "")
      else
        .ok (consentFinish
          { out with
            hypotheses := hyR.1
            stale_items := stR.1
            open_loops := olR.1
            candidate_moves := cmR.1
            confirmed_facts := cfR.1 })
  | .confirm id fact value =>
    if ¬ argTruthy id then .error "confirm requires --id"
    else
      let idS := id.getD ""
      match _find_item out idS with
      | Option.none => .error ("id not found: " ++ idS)
      | some it =>
        let factV := if argTruthy fact then Value.str (fact.getD "") else getV it "statement"
        if ¬ truthy factV then .error "confirm requires --fact or statement"
        else
          let valueV := match value with
            | some v => Value.str v
            | Option.none => Value.none
          let newFact : Item :=
            [("id", .str idS), ("fact", .str (valueStr factV)), ("value", valueV),
             ("domain", dgetD it "domain" (.str "")), ("confidence", .num 0.99),
             ("first_seen", pyOr (getV it "first_seen") (.str nowIso)),
             ("last_seen", .str nowIso), ("last_confirmed", .str nowIso),
             ("expires_at", pyOr (getV it "expires_at") (.str "9999-12-31T00:00:00+00:00")),
             ("status", .str "active"),
             ("evidence", pyOr (getV it "evidence") (.list []))]
          let out2 := { out with
            hypotheses := out.hypotheses.filter (fun x => ¬ idIs x idS),
            stale_items := out.stale_items.filter (fun x => ¬ idIs x idS),
            open_loops := out.open_loops.filter (fun x => ¬ idIs x idS),
            candidate_moves := out.candidate_moves.filter (fun x => ¬ idIs x idS),
            confirmed_facts := out.confirmed_facts ++ [newFact] }
          .ok (consentFinish out2)

/-! ## Definitions taken from the specification's words

These are deliberately written from the spec, to be compared with the
definitions above that are translated from the source. -/

/-- Spec notion of a path staying within the workspace root: equal to the
root, or strictly below it (root plus a path separator is a true prefix).
This is the property the spec asserts of accepted evidence paths. -/
def pathWithin (root p : String) : Prop :=
  p = root ∨ isPrefixOfStr (root ++ "/") p

/-- The spec's confidence formula
`clamp(0.05, 0.99, 0.20 + 0.12·min(5, sourceCount) + recencyTerm
 + (0.15 if sourceCount ≥ 2 else 0) + (0.20 if user_confirmed else 0)
 − (0.25 if conflicts else 0))`,
with the recency term abstracted as an argument. -/
noncomputable def specConfidence (sourceCount : ℕ) (recencyTerm : ℝ)
    (user_confirmed conflicts : Bool) : ℝ :=
  clamp (0.20 + 0.12 * (min 5 sourceCount : ℕ) + recencyTerm
      + (if 2 ≤ sourceCount then (0.15 : ℝ) else 0)
      + (if user_confirmed then (0.20 : ℝ) else 0)
      - (if conflicts then (0.25 : ℝ) else 0)) 0.05 0.99

/-- The newest of a list of datetimes by instant (first one wins ties). -/
def maxEpoch : List DateTime → Option DateTime
  | [] => Option.none
  | dt :: rest =>
    match maxEpoch rest with
    | Option.none => some dt
    | some b => if dt.epoch < b.epoch then some b else some dt

/-- The timestamps the recency scan considers: each truthy `ts`, parsed
with wall-clock fallback. -/
noncomputable def recencyTss (evidence : List Item) (wall : DateTime) : List DateTime :=
  evidence.filterMap (fun ev =>
    if truthy (getV ev "ts") then some (parse_iso (valueStr (getV ev "ts")) wall)
    else Option.none)

/-- The recency term as the code actually computes it, written in the
spec's style: take the newest evidence timestamp (an unparseable but
present `ts` falling back to the current wall-clock time), let `r` be its
age in days (floored at 0); the term is `0.25·exp(-r/7)` when `r < 9999`
and `0` otherwise; with no (truthy) `ts` at all the term is `0`. -/
noncomputable def amendedRecencyTerm (evidence : List Item) (now wall : DateTime) : ℝ :=
  match maxEpoch (recencyTss evidence wall) with
  | Option.none => 0
  | some best =>
    let r := max 0 (((now.epoch - best.epoch : Int) : ℝ) / 86400)
    if r < 9999 then 0.25 * Real.exp (-r / 7) else 0

/-- The id of an item, for items carrying string ids. -/
def itemId (it : Item) : String :=
  match dget it "id" with
  | some (.str s) => s
  | _ => ""

/-- An item carries a non-empty string id. -/
def hasGoodId (it : Item) : Prop :=
  ∃ s, dget it "id" = some (.str s) ∧ s ≠ ""

/-- All items of a list carry non-empty string ids, pairwise distinct. -/
def goodIds (l : List Item) : Prop :=
  (∀ it ∈ l, hasGoodId it) ∧ (l.map itemId).Nodup

/-- The id occurs somewhere in the model (active sections or stale_items). -/
def idOccurs (m : Model) (id : String) : Prop :=
  id ∈ (m.confirmed_facts ++ m.hypotheses ++ m.open_loops
      ++ m.candidate_moves ++ m.stale_items).map itemId

/-! ## Concrete test data -/

/-- A fixed evaluation instant: 2026-02-22T01:00:00+01:00. -/
def tNow : DateTime := ⟨1771718400, 60⟩

/-- Filesystem for the path-traversal input: the quoted file lives at
`/wsx/f`, a sibling of the workspace root `/ws`. -/
def c2_fs : FS := [("/wsx/f", "token\n")]

/-- Evidence whose path climbs out of the workspace `/ws` into the sibling
directory `/wsx`. -/
def c2_ev : Item :=
  [("path", .str "../wsx/f"), ("lines", .str "L1-L1"), ("quote", .str "token"),
   ("ts", .str "2026-02-22T00:00:00+01:00")]

/-- Filesystem with a single in-workspace file whose one line is `xax`. -/
def c1_fs : FS := [("/ws/f.md", "xax\n")]

/-- Evidence whose quote field carries surrounding whitespace: the stripped
quote `a` occurs in the cited line, the raw quote `" a "` does not. -/
def c1_ev : Item :=
  [("path", .str "f.md"), ("lines", .str "L1-L1"), ("quote", .str " a "),
   ("ts", .str "2026-02-22T00:00:00+01:00")]

/-- An active item whose `expires_at` is not a parseable timestamp. -/
def c10_item : Item :=
  [("id", .str "h1"), ("statement", .str "A hypothesis"),
   ("expires_at", .str "not-a-date"), ("status", .str "active")]

/-- A single evidence entry whose `ts` field is present but garbage. -/
def c3_ev : Item := [("ts", .str "t")]

/-- An expired active hypothesis without a stored confidence; its
`last_seen` is `2026-01-01T05:00:00+00:00`. -/
def c5_exp : Item :=
  [("id", .str "h-exp"), ("statement", .str "Old"), ("first_seen", .str "t"),
   ("last_seen", .str "2026-01-01T05:00:00+00:00"),
   ("expires_at", .str "2000-01-01T00:00:00+00:00"), ("status", .str "active")]

/-- A pre-existing stale entry with the same id whose `last_seen` denotes an
EARLIER instant (01:00 UTC vs 05:00 UTC) but is the lexicographically
GREATER string, and whose confidence is 0.9. -/
def c5_old : Item :=
  [("id", .str "h-exp"), ("statement", .str "Old"),
   ("last_seen", .str "2026-01-01T10:00:00+09:00"), ("status", .str "stale"),
   ("confidence", .num 0.9)]

/-- A proposal with no items, for scope `s`. -/
def emptyProposal : Proposal :=
  { scope := "s", generatedAt := "2026-02-22T00:00:00+01:00", confirmed_facts := [],
    hypotheses := [], open_loops := [], candidate_moves := [] }

/-- A `do_not_store` rule list with the single pattern `secret`. -/
def c4_dns : List Item := [[("pattern", .str "secret")]]

/-- Workspace files backing the Scenario A evidence. -/
def c4_fs : FS := [("/ws/f.md", "xax\n")]

/-- Scenario A's proposed hypothesis: statement contains `SECRET`, and the
evidence is valid against `c4_fs`. -/
def c4_hyp : Item :=
  [("id", .str "h1"), ("statement", .str "This contains SECRET content."),
   ("evidence", .list [.dict [("path", .str "f.md"), ("lines", .str "L1-L1"),
     ("quote", .str "xa"), ("ts", .str "2026-02-20T00:00:00+00:00")]])]

/-- A previous model carrying the `secret` do-not-store rule and nothing
else. -/
def c4_model : Model :=
  { scope := "s", updatedAt := "t", confirmed_facts := [], hypotheses := [],
    stale_items := [], open_loops := [], candidate_moves := [], do_not_store := c4_dns }

/-- Scenario A's proposal: adds only `c4_hyp`. -/
def c4_prop : Proposal :=
  { scope := "s", generatedAt := "2026-02-22T00:00:00+01:00", confirmed_facts := [],
    hypotheses := [c4_hyp], open_loops := [], candidate_moves := [] }

/-- The model persisted by the Scenario A merge: the matching hypothesis
is gone. -/
def c4_m1 : Model :=
  { scope := "s", updatedAt := isoformat tNow, confirmed_facts := [], hypotheses := [],
    stale_items := [], open_loops := [], candidate_moves := [], do_not_store := c4_dns }

/-- A pre-existing stale item whose statement matches the `secret`
pattern. -/
def c4_secret_stale : Item :=
  [("id", .str "s1"), ("statement", .str "a secret note"),
   ("status", .str "stale"), ("last_seen", .str "2026-01-01T00:00:00+00:00")]

/-- A previous model with the `secret` rule and the matching stale
item. -/
def c4_model2 : Model :=
  { c4_model with stale_items := [c4_secret_stale] }

/-- The model persisted by merging `emptyProposal` into `c4_model2`: the
matching stale item survives. -/
def c4_m2res : Model :=
  { c4_m1 with stale_items := [c4_secret_stale] }

/-- A current hypothesis kept (unrefreshed) across a merge, with a
persisted `expires_at`. -/
def c7_item : Item :=
  [("id", .str "h1"), ("statement", .str "s"),
   ("expires_at", .str "2026-03-01T00:00:00+00:00"), ("confidence", .num 0.5)]

/-- The result of processing `c7_item` unrefreshed in the `hypotheses`
section. -/
noncomputable def c7_out : Item :=
  normalize_for_section "hypotheses" tNow 21
    (dpop (dpop c7_item "_keep_first_seen") "_refreshed") Value.none false

/-- A previous model whose only item is the hypothesis `c7_item`. -/
def c9_m0 : Model :=
  { scope := "s", updatedAt := "t", confirmed_facts := [], hypotheses := [c7_item],
    stale_items := [], open_loops := [], candidate_moves := [], do_not_store := [] }

/-- The fixed point of merging `emptyProposal` into `c9_m0`. -/
noncomputable def c9_m1 : Model :=
  { scope := "s", updatedAt := isoformat tNow, confirmed_facts := [],
    hypotheses := [c7_out], stale_items := [], open_loops := [],
    candidate_moves := [], do_not_store := [] }

/-- A model whose only item is the hypothesis `h1`. -/
def c6_model : Model :=
  { scope := "user-profile/preferences", updatedAt := "t", confirmed_facts := [],
    hypotheses := [[("id", .str "h1"), ("statement", .str "A hypothesis"),
      ("first_seen", .str "t"), ("last_seen", .str "t"),
      ("expires_at", .str "2099-01-01T00:00:00+00:00"), ("status", .str "active")]],
    stale_items := [], open_loops := [], candidate_moves := [], do_not_store := [] }

end ConnectDots

namespace ConnectDots

/-! ## Theorems -/

/-- **C2** (code bug).  The evidence verifier is specified to reject every
entry whose resolved path escapes the workspace root, but the check is a
raw string-prefix test: with workspace `/ws`, the path `../wsx/f` resolves
to `/wsx/f`, which starts with the string `/ws` yet is not within the root
`/ws`; the verifier accepts the whole evidence list. -/
theorem C2_path_escape_accepted :
    verify_evidence_sources [c2_ev] "/ws" c2_fs = .ok ()
      ∧ resolveUnder "/ws" (valueStr (getV c2_ev "path")) = "/wsx/f"
      ∧ ¬ pathWithin "/ws" "/wsx/f" := by
  refine ⟨rfl, rfl, ?_⟩
  simp only [pathWithin]
  decide

/-- **C6** (code bug).  After `forget(id="h1")` on a model whose only item
is the hypothesis `h1`, the persisted model has an empty `hypotheses` list
but also an empty `stale_items` list: the retracted item is dropped from
the active section without ever being copied into `stale_items`, so no
entry with `id="h1"` and `status="retracted"` exists anywhere, contrary to
the specification (and to the code's own comment that retracted items are
kept in `stale_items` for audit). -/
theorem C6_forget_leaves_no_audit_entry :
    consentMain c6_model "2026-02-22T00:00:00+00:00" (.forget (some "h1") Option.none)
      = .ok { scope := "user-profile/preferences",
              updatedAt := "2026-02-22T00:00:00+00:00", confirmed_facts := [],
              hypotheses := [], stale_items := [], open_loops := [],
              candidate_moves := [], do_not_store := [] } := by
  rfl

/-- A successful parse of a lines spec yields `1 ≤ start ≤ end`. -/
theorem parse_lines_bounds {s : String} {a b : Nat}
    (h : parse_lines_spec s = .ok (a, b)) : 1 ≤ a ∧ a ≤ b := by
  unfold parse_lines_spec at h
  split at h
  all_goals try exact Except.noConfusion h
  split_ifs at h with hc
  all_goals try exact Except.noConfusion h
  injection h with h'
  simp only [Prod.mk.injEq] at h'
  obtain ⟨rfl, rfl⟩ := h'
  push_neg at hc
  omega

/-- What a successfully verified evidence entry guarantees. -/
def entryVerified (workspace : String) (fs : FS) (ev : Item) : Prop :=
  ∃ a b content,
    parse_lines_spec (valueStr (dgetD ev "lines" (.str ""))) = .ok (a, b)
    ∧ 1 ≤ a ∧ a ≤ b
    ∧ fs.lookup (resolveUnder workspace (valueStr (getV ev "path"))) = some content
    ∧ b ≤ (readlines content).length
    ∧ trimStr (valueStr (pyOr (getV ev "quote") (.str ""))) ≠ ""
    ∧ strContains
        (String.join (List.take (b - (a - 1)) (List.drop (a - 1) (readlines content))))
        (trimStr (valueStr (pyOr (getV ev "quote") (.str "")))) = true

/-- A per-entry success of the verifier implies the citation facts. -/
theorem verifyEntry_ok {ws workspace : String} {fs : FS} {ev : Item}
    (h : verifyEntry ws workspace fs ev = .ok ()) :
    entryVerified workspace fs ev := by
  unfold verifyEntry at h
  dsimp only at h
  split_ifs at h with h1 h2 h3
  all_goals try exact Except.noConfusion h
  all_goals split at h
  all_goals try exact Except.noConfusion h
  all_goals split at h
  all_goals try exact Except.noConfusion h
  rename_i o1 content hcontent o2 a b hab
  split_ifs at h with h4 h5
  all_goals try exact Except.noConfusion h
  obtain ⟨ha1, hab'⟩ := parse_lines_bounds hab
  exact ⟨a, b, content, hab, ha1, hab', hcontent, by omega, h3, by simpa using h5⟩

/-- A successful verifier loop verifies every entry. -/
theorem verifyLoop_ok {ws workspace : String} {fs : FS} :
    ∀ {evidence : List Item}, verifyLoop ws workspace fs evidence = .ok () →
      ∀ ev ∈ evidence, entryVerified workspace fs ev := by
  intro evidence
  induction evidence with
  | nil => intro _ ev hev; cases hev
  | cons e rest ih =>
    intro h ev hev
    unfold verifyLoop at h
    split at h
    · exact Except.noConfusion h
    · rename_i u heq
      rcases List.mem_cons.mp hev with rfl | hmem
      · cases u; exact verifyEntry_ok heq
      · exact ih h ev hmem

/-- **C1** (counterexample).  The verifier strips the quote before both the
non-emptiness check and the substring check: the entry below, whose raw
quote field is `" a "`, is accepted against a file whose only line is
`xax`, yet the raw quote is not a substring of the concatenation of the
cited lines. -/
theorem C1_counterexample :
    verify_evidence_sources [c1_ev] "/ws" c1_fs = .ok ()
      ∧ valueStr (getV c1_ev "quote") = " a "
      ∧ strContains "xax\n" " a " = false :=
  ⟨rfl, rfl, rfl⟩

/-- **C1** (amended).  For every evidence list accepted by the verifier,
every entry satisfies: its lines field parses as `L<start>-L<end>` with
`start ≥ 1` and `end ≥ start`; `end` does not exceed the cited file's
actual line count; and the quote, after stripping leading and trailing
whitespace, is non-empty and occurs as a substring of the concatenation of
lines `start..end` (1-based, inclusive) of the cited file.  Any entry
violating one of these makes the whole call fail with an error (there is
no partial acceptance: a `.ok` result certifies every entry). -/
theorem C1_accepted_evidence_grounded {evidence : List Item} {workspace : String}
    {fs : FS} (h : verify_evidence_sources evidence workspace fs = .ok ()) :
    ∀ ev ∈ evidence, entryVerified workspace fs ev :=
  verifyLoop_ok h

/-- Witness for C1: a concrete accepted list whose entry satisfies the
certified facts. -/
theorem C1_accepted_evidence_grounded_witness :
    entryVerified "/ws" c1_fs c1_ev :=
  @C1_accepted_evidence_grounded [c1_ev] "/ws" c1_fs
    rfl c1_ev (by simp)

/-- A non-retracted, non-expired item is kept by the decay move. -/
theorem keep_of_not_stale {now_dt : DateTime} {it : Item}
    (hstatus : statusIs it "retracted" = false)
    (hie : is_expired now_dt it = false) :
    ∀ items, it ∈ items → it ∈ (move_to_stale now_dt items).1 := by
  intro items
  induction items with
  | nil => intro hmem; cases hmem
  | cons a rest ih =>
    intro hmem
    unfold move_to_stale
    rcases hms : move_to_stale now_dt rest with ⟨keep, stale⟩
    dsimp only
    rcases List.mem_cons.mp hmem with rfl | hmem'
    · rw [hstatus, hie]
      simp
    · have hk : it ∈ keep := by
        have := ih hmem'
        rw [hms] at this
        exact this
      split_ifs <;> first
        | exact hk
        | exact List.mem_cons_of_mem _ hk

/-- **C10**.  During the decay pass, an item whose `expires_at` is missing
or not parseable as a timestamp is classified as not expired, and (when its
status is not `"retracted"`) it stays in its active section: it is never
moved to `stale_items` by that pass. -/
theorem C10_unparseable_expiry_not_expired (now_dt : DateTime) (items : List Item)
    (it : Item) (hmem : it ∈ items)
    (hstatus : statusIs it "retracted" = false)
    (hexp : ∀ s, dget it "expires_at" = some (.str s) →
      fromisoformat (replaceZ s) = Option.none) :
    is_expired now_dt it = false ∧ it ∈ (move_to_stale now_dt items).1 := by
  have hie : is_expired now_dt it = false := by
    unfold is_expired
    split
    · rename_i s heq
      rw [hexp s heq]
    · rfl
  exact ⟨hie, keep_of_not_stale hstatus hie items hmem⟩


/-- Witness for C10: a concrete active item with unparseable `expires_at`
survives the decay pass. -/
theorem C10_unparseable_expiry_not_expired_witness :
    is_expired tNow c10_item = false ∧ c10_item ∈ (move_to_stale tNow [c10_item]).1 :=
  C10_unparseable_expiry_not_expired tNow [c10_item] c10_item (by simp) rfl
    (by
      intro s hs
      rw [show dget c10_item "expires_at" = some (.str "not-a-date") from rfl] at hs
      injection hs with hs'
      injection hs' with hs''
      rw [← hs'']
      rfl)


/-- If no element of the list carries the id, `retractFirst` finds
nothing. -/
theorem retractFirst_none {id : String} :
    ∀ {items : List Item}, (∀ it ∈ items, idIs it id = false) →
      retractFirst id items = Option.none := by
  intro items
  induction items with
  | nil => intro _; rfl
  | cons a rest ih =>
    intro h
    unfold retractFirst
    simp only [h a (List.mem_cons_self _ _), Bool.false_eq_true, if_false,
      ih (fun it hit => h it (List.mem_cons_of_mem _ hit)), Option.map_none']

/-- If no section of the model carries the id, `retractById` fails. -/
theorem retractById_none {m : Model} {id : String}
    (h1 : ∀ it ∈ m.hypotheses, idIs it id = false)
    (h2 : ∀ it ∈ m.stale_items, idIs it id = false)
    (h3 : ∀ it ∈ m.open_loops, idIs it id = false)
    (h4 : ∀ it ∈ m.candidate_moves, idIs it id = false)
    (h5 : ∀ it ∈ m.confirmed_facts, idIs it id = false) :
    retractById m id = Option.none := by
  unfold retractById
  rw [retractFirst_none h1, retractFirst_none h2, retractFirst_none h3,
    retractFirst_none h4, retractFirst_none h5]

/-- If no element's text contains the needle, `retractMatches` reports no
hit and returns the list unchanged. -/
theorem retractMatches_none {needle : String} :
    ∀ {items : List Item},
      (∀ it ∈ items, strContains (toLowerStr (stmtText it)) needle = false) →
      retractMatches needle items = (items, false) := by
  intro items
  induction items with
  | nil => intro _; rfl
  | cons a rest ih =>
    intro h
    unfold retractMatches
    simp only [ih (fun it hit => h it (List.mem_cons_of_mem _ hit)),
      h a (List.mem_cons_self _ _), Bool.false_eq_true, if_false]

/-- **C8**.  A consent `deny` or `forget` given an id found in no section,
or a `forget` by substring matching zero items across all sections, fails
with an error; since the error is raised before the atomic write, the
persisted model file is left completely unchanged (a `.error` result of
`consentMain` models exactly that: no write occurs). -/
theorem C8_missing_target_fails (m : Model) (nowIso id mtch : String)
    (hid : id ≠ "") (hmt : mtch ≠ "")
    (hnot : ∀ it ∈ m.hypotheses ++ m.stale_items ++ m.open_loops
        ++ m.candidate_moves ++ m.confirmed_facts, idIs it id = false)
    (hnom : ∀ it ∈ m.hypotheses ++ m.stale_items ++ m.open_loops
        ++ m.candidate_moves ++ m.confirmed_facts,
      strContains (toLowerStr (stmtText it)) (toLowerStr mtch) = false) :
    consentMain m nowIso (.deny (some id)) = .error ("id not found: " ++ id)
      ∧ consentMain m nowIso (.forget (some id) Option.none)
          = .error ("id not found: " ++ id)
      ∧ consentMain m nowIso (.forget Option.none (some mtch))
          = .error ("no matches for: " ++ mtch) := by
  have hid0 : id.isEmpty = false := by
    rw [Bool.eq_false_iff, Ne, String.isEmpty_iff]
    exact hid
  have hmt0 : mtch.isEmpty = false := by
    rw [Bool.eq_false_iff, Ne, String.isEmpty_iff]
    exact hmt
  have hidT : argTruthy (some id) = true := by simp [argTruthy, hid0]
  have hmtT : argTruthy (some mtch) = true := by simp [argTruthy, hmt0]
  have hsec : ∀ {l : List Item}, l = m.hypotheses ∨ l = m.stale_items ∨ l = m.open_loops
      ∨ l = m.candidate_moves ∨ l = m.confirmed_facts →
      ∀ it ∈ l, idIs it id = false := by
    intro l hl it hit
    refine hnot it ?_
    simp only [List.mem_append]
    rcases hl with rfl | rfl | rfl | rfl | rfl
    · exact Or.inl (Or.inl (Or.inl (Or.inl hit)))
    · exact Or.inl (Or.inl (Or.inl (Or.inr hit)))
    · exact Or.inl (Or.inl (Or.inr hit))
    · exact Or.inl (Or.inr hit)
    · exact Or.inr hit
  have hsecM : ∀ {l : List Item}, l = m.hypotheses ∨ l = m.stale_items ∨ l = m.open_loops
      ∨ l = m.candidate_moves ∨ l = m.confirmed_facts →
      ∀ it ∈ l, strContains (toLowerStr (stmtText it)) (toLowerStr mtch) = false := by
    intro l hl it hit
    refine hnom it ?_
    simp only [List.mem_append]
    rcases hl with rfl | rfl | rfl | rfl | rfl
    · exact Or.inl (Or.inl (Or.inl (Or.inl hit)))
    · exact Or.inl (Or.inl (Or.inl (Or.inr hit)))
    · exact Or.inl (Or.inl (Or.inr hit))
    · exact Or.inl (Or.inr hit)
    · exact Or.inr hit
  have hrb : retractById { m with updatedAt := nowIso } id = Option.none :=
    retractById_none (hsec (Or.inl rfl)) (hsec (Or.inr (Or.inl rfl)))
      (hsec (Or.inr (Or.inr (Or.inl rfl)))) (hsec (Or.inr (Or.inr (Or.inr (Or.inl rfl)))))
      (hsec (Or.inr (Or.inr (Or.inr (Or.inr rfl)))))
  have hnone : argTruthy Option.none = false := rfl
  refine ⟨?_, ?_, ?_⟩
  · unfold consentMain
    simp [hidT, hrb]
  · unfold consentMain
    simp [hidT, hnone, hrb]
  · unfold consentMain
    simp [hmtT, hnone,
      retractMatches_none (hsecM (Or.inl rfl)),
      retractMatches_none (hsecM (Or.inr (Or.inl rfl))),
      retractMatches_none (hsecM (Or.inr (Or.inr (Or.inl rfl)))),
      retractMatches_none (hsecM (Or.inr (Or.inr (Or.inr (Or.inl rfl))))),
      retractMatches_none (hsecM (Or.inr (Or.inr (Or.inr (Or.inr rfl)))))]

/-- Witness for C8: on a concrete one-hypothesis model, deny/forget with
the unknown id `zz` and forget with the unmatched substring `zz` all fail
with the expected errors. -/
theorem C8_missing_target_fails_witness :
    consentMain c6_model "now" (.deny (some "zz")) = .error "id not found: zz"
      ∧ consentMain c6_model "now" (.forget (some "zz") Option.none)
          = .error "id not found: zz"
      ∧ consentMain c6_model "now" (.forget Option.none (some "zz"))
          = .error "no matches for: zz" :=
  C8_missing_target_fails c6_model "now" "zz" "zz" (by decide) (by decide)
    (by decide) (by decide)


/-- `optMax` with an empty accumulator. -/
theorem optMax_none_left (b : Option DateTime) : optMax Option.none b = b := by
  cases b <;> rfl

/-- `optMax` with an empty candidate. -/
theorem optMax_none_right (a : Option DateTime) : optMax a Option.none = a := by
  cases a <;> rfl

/-- `optMax` is associative (first-wins tie-breaking is associative). -/
theorem optMax_assoc (a b c : Option DateTime) :
    optMax (optMax a b) c = optMax a (optMax b c) := by
  cases a with
  | none => rw [optMax_none_left, optMax_none_left]
  | some x =>
    cases b with
    | none => rw [optMax_none_right, optMax_none_left]
    | some y =>
      cases c with
      | none => rw [optMax_none_right, optMax_none_right]
      | some z =>
        simp only [optMax]
        by_cases hxy : x.epoch < y.epoch
        · rw [if_pos hxy]
          by_cases hyz : y.epoch < z.epoch
          · rw [if_pos hyz]
            simp only [optMax]
            rw [if_pos hyz, if_pos (lt_trans hxy hyz)]
          · rw [if_neg hyz]
            simp only [optMax]
            rw [if_neg hyz, if_pos hxy]
        · rw [if_neg hxy]
          by_cases hyz : y.epoch < z.epoch
          · rw [if_pos hyz]
          · rw [if_neg hyz]
            simp only [optMax]
            rw [if_neg (show ¬ x.epoch < z.epoch by omega), if_neg hxy]

/-- One step of `maxEpoch`. -/
theorem maxEpoch_cons (dt : DateTime) (l : List DateTime) :
    maxEpoch (dt :: l) = optMax (some dt) (maxEpoch l) := by
  cases hx : maxEpoch l with
  | none => simp only [maxEpoch, hx, optMax]
  | some x => simp only [maxEpoch, hx, optMax]

/-- The recency scan is the maximum (by instant) of the considered
timestamps, combined with the accumulator. -/
theorem bestTs_eq_optMax {wall : DateTime} :
    ∀ (l : List Item) (acc : Option DateTime),
      bestTs wall l acc = optMax acc (maxEpoch (recencyTss l wall)) := by
  intro l
  induction l with
  | nil =>
    intro acc
    cases acc <;> rfl
  | cons ev rest ih =>
    intro acc
    by_cases ht : truthy (getV ev "ts") = true
    · have htss : recencyTss (ev :: rest) wall
          = parse_iso (valueStr (getV ev "ts")) wall :: recencyTss rest wall := by
        unfold recencyTss
        rw [List.filterMap_cons, if_pos ht]
      simp only [bestTs]
      rw [if_neg (by simp [ht]), htss, maxEpoch_cons, ih, optMax_assoc]
    · have ht' : truthy (getV ev "ts") = false := by
        cases hq : truthy (getV ev "ts")
        · rfl
        · exact absurd hq ht
      have htss : recencyTss (ev :: rest) wall = recencyTss rest wall := by
        unfold recencyTss
        rw [List.filterMap_cons]
        rw [if_neg (by simp [ht'])]
      simp only [bestTs]
      rw [if_pos ht, htss, ih]


/-- **C3** (amended).  The computed confidence equals the spec's shape
`clamp(0.05, 0.99, 0.20 + 0.12·min(5, sourceCount) + recencyTerm
+ (0.15 if sourceCount ≥ 2 else 0) + (0.20 if user_confirmed else 0)
− (0.25 if conflicts else 0))`, where the recency term is
`amendedRecencyTerm`: `0.25·exp(-recencyDays/7)` for the age of the newest
evidence timestamp, an unparseable-but-present `ts` being treated as the
current wall-clock time (maximally fresh), the term degenerating to `0`
when the age reaches 9999 days or when no entry has a truthy `ts`; and the
result always lies in `[0.05, 0.99]`. -/
theorem C3_confidence_formula_amended (evidence : List Item) (uc cf : Bool)
    (now wall : DateTime) :
    confidence_formula evidence uc cf now wall
      = specConfidence evidence.length (amendedRecencyTerm evidence now wall) uc cf
    ∧ 0.05 ≤ confidence_formula evidence uc cf now wall
    ∧ confidence_formula evidence uc cf now wall ≤ 0.99 := by
  have hb : bestTs wall evidence Option.none = maxEpoch (recencyTss evidence wall) := by
    rw [bestTs_eq_optMax, optMax_none_left]
  have hrec : (0.25 : ℝ) * (if compute_recency_days evidence now wall < 9999
        then Real.exp (-compute_recency_days evidence now wall / 7) else 0)
      = amendedRecencyTerm evidence now wall := by
    unfold amendedRecencyTerm compute_recency_days
    rw [hb]
    cases hm : maxEpoch (recencyTss evidence wall) with
    | none =>
      dsimp only
      rw [if_neg (by norm_num)]
      ring
    | some best =>
      dsimp only
      rw [mul_ite, mul_zero]
  refine ⟨?_, ?_, ?_⟩
  · unfold confidence_formula specConfidence
    dsimp only
    rw [hrec]
  · unfold confidence_formula clamp
    dsimp only
    exact le_max_left _ _
  · unfold confidence_formula clamp
    dsimp only
    exact max_le (by norm_num) (min_le_left _ _)

/-- **C3** (counterexample).  With a single evidence entry whose `ts` is
present but unparseable (`"t"`), no evidence timestamp parses, so the claim
says the recency term contributes 0 and the confidence is
`specConfidence 1 0 = 0.32`; but `parse_iso` falls back to the current
wall-clock time, making the entry maximally fresh: the code computes
`0.57`. -/
theorem C3_counterexample :
    fromisoformat (replaceZ "t") = Option.none
      ∧ confidence_formula [c3_ev] false false tNow tNow = 0.57
      ∧ specConfidence 1 0 false false = 0.32
      ∧ (0.57 : ℝ) ≠ 0.32 := by
  refine ⟨rfl, ?_, ?_, by norm_num⟩
  · have h1 : compute_recency_days [c3_ev] tNow tNow = 0 := by
      have hb : bestTs tNow [c3_ev] Option.none = some tNow := rfl
      unfold compute_recency_days
      rw [hb]
      norm_num
    unfold confidence_formula
    dsimp only
    rw [h1]
    rw [if_pos (by norm_num : (0 : ℝ) < 9999)]
    norm_num [Real.exp_zero, clamp]
  · unfold specConfidence clamp
    norm_num


/-! ### Dict lemmas -/

/-- Reading back the key just written. -/
theorem dget_dset_self (it : Item) (k : String) (v : Value) :
    dget (dset it k v) k = some v := by
  induction it with
  | nil => simp [dset, dget]
  | cons p rest ih =>
    obtain ⟨k', v'⟩ := p
    by_cases hk : k' = k
    · simp [dset, dget, hk]
    · simp [dset, dget, hk, ih]

/-- Writing one key does not change another. -/
theorem dget_dset_ne (it : Item) {k k' : String} (v : Value) (h : k' ≠ k) :
    dget (dset it k v) k' = dget it k' := by
  induction it with
  | nil => simp [dset, dget, Ne.symm h]
  | cons p rest ih =>
    obtain ⟨k0, v0⟩ := p
    by_cases hk : k0 = k
    · subst hk
      simp [dset, dget, Ne.symm h]
    · simp [dset, dget, hk, ih]

/-- `setdefault` on one key does not change another. -/
theorem dget_dsetdefault_ne (it : Item) {k k' : String} (v : Value) (h : k' ≠ k) :
    dget (dsetdefault it k v) k' = dget it k' := by
  unfold dsetdefault
  cases dget it k with
  | some _ => rfl
  | none =>
    induction it with
    | nil => simp [dget, Ne.symm h]
    | cons p rest ih =>
      obtain ⟨k0, v0⟩ := p
      by_cases hk : k0 = k'
      · simp [dget, hk]
      · simp [dget, hk, ih]

/-- `setdefault` keeps an already-present key's value. -/
theorem dget_dsetdefault_of_present (it : Item) (k : String) (v w : Value)
    (h : dget it k = some w) : dget (dsetdefault it k v) k = some w := by
  unfold dsetdefault
  rw [h]
  exact h

/-- Popping one key does not change another. -/
theorem dget_dpop_ne (it : Item) {k k' : String} (h : k' ≠ k) :
    dget (dpop it k) k' = dget it k' := by
  induction it with
  | nil => rfl
  | cons p rest ih =>
    obtain ⟨k0, v0⟩ := p
    unfold dpop at ih ⊢
    simp only [decide_not] at ih ⊢
    rw [List.filter_cons]
    by_cases hk : k0 = k
    · subst hk
      simp [dget, Ne.symm h, ih]
    · by_cases hk' : k0 = k'
      · simp [dget, hk, hk', h]
      · simp [dget, hk, hk', ih]

/-- The decay move, in closed form: kept items and stale additions. -/
theorem move_to_stale_eq (now_dt : DateTime) (items : List Item) :
    move_to_stale now_dt items = (decayKeep now_dt items, staleAdds now_dt items) := by
  induction items with
  | nil => rfl
  | cons it rest ih =>
    unfold move_to_stale
    rw [ih]
    dsimp only
    unfold decayKeep staleAdds
    rw [List.filter_cons, List.filterMap_cons]
    by_cases h1 : statusIs it "retracted" = true
    · simp [h1]
    · by_cases h2 : is_expired now_dt it = true
      · simp [h1, h2]
      · simp [h1, h2]


/-! ### Stale-dedupe lemmas -/

/-- Evaluate a lookup step on a matching head. -/
theorem lookup_cons_eq {α : Type} {k k0 : String} (v0 : α) (rest : List (String × α))
    (h : k = k0) : List.lookup k ((k0, v0) :: rest) = some v0 := by
  subst h
  simp [List.lookup]

/-- Evaluate a lookup step on a non-matching head. -/
theorem lookup_cons_ne {α : Type} {k k0 : String} (v0 : α) (rest : List (String × α))
    (h : k ≠ k0) : List.lookup k ((k0, v0) :: rest) = rest.lookup k := by
  simp [List.lookup, beq_eq_false_iff_ne.mpr h]

/-- Lookup after an association update, same key. -/
theorem lookup_assocUpd_self {α : Type} (m : List (String × α)) (k : String) (v : α) :
    (assocUpd m k v).lookup k = some v := by
  induction m with
  | nil => simp [assocUpd, List.lookup]
  | cons p rest ih =>
    obtain ⟨k0, v0⟩ := p
    by_cases hk : k0 = k
    · simp only [assocUpd, hk, if_true]
      exact lookup_cons_eq v rest rfl
    · simp only [assocUpd, hk, if_false]
      rw [lookup_cons_ne v0 _ (Ne.symm hk)]
      exact ih

/-- Lookup after an association update, different key. -/
theorem lookup_assocUpd_ne {α : Type} (m : List (String × α)) {k k' : String} (v : α)
    (h : k' ≠ k) : (assocUpd m k v).lookup k' = m.lookup k' := by
  induction m with
  | nil =>
    simp only [assocUpd]
    rw [lookup_cons_ne v [] h]
  | cons p rest ih =>
    obtain ⟨k0, v0⟩ := p
    by_cases hk : k0 = k
    · subst hk
      simp only [assocUpd, if_true]
      rw [lookup_cons_ne v rest h, lookup_cons_ne v0 rest h]
    · simp only [assocUpd, hk, if_false]
      by_cases hk' : k' = k0
      · rw [lookup_cons_eq v0 _ hk', lookup_cons_eq v0 rest hk']
      · rw [lookup_cons_ne v0 _ hk', lookup_cons_ne v0 rest hk']
        exact ih

/-- A value found by lookup is among the mapped values. -/
theorem mem_values_of_lookup {α : Type} {m : List (String × α)} {k : String} {v : α}
    (h : m.lookup k = some v) : v ∈ m.map Prod.snd := by
  induction m with
  | nil => simp [List.lookup] at h
  | cons p rest ih =>
    obtain ⟨k0, v0⟩ := p
    rw [List.map_cons]
    by_cases hk : k = k0
    · rw [lookup_cons_eq v0 rest hk] at h
      injection h with h'
      simp [h']
    · rw [lookup_cons_ne v0 rest hk] at h
      exact List.mem_cons_of_mem _ (ih h)

/-- A dedupe step over an item with a different (or missing) id leaves the
lookup at `i` unchanged. -/
theorem dedupeStep_lookup_ne {i : String} (by_id : List (String × Item)) (it : Item)
    (hne : dget it "id" ≠ some (.str i)) :
    (dedupeStep by_id it).lookup i = by_id.lookup i := by
  unfold dedupeStep
  split
  · rename_i s hs
    have hsi : i ≠ s := by
      intro hq
      exact hne (hq ▸ hs)
    by_cases h0 : s = ""
    · rw [if_pos h0]
    · rw [if_neg h0]
      cases hl : by_id.lookup s with
      | none =>
        dsimp only
        exact lookup_assocUpd_ne by_id _ hsi
      | some cur =>
        dsimp only
        by_cases hc : pyStrLt (lastSeenStr cur) (lastSeenStr it) = true
        · rw [if_pos hc]
          exact lookup_assocUpd_ne by_id _ hsi
        · rw [if_neg hc]
  · rfl

/-- A dedupe step over an item carrying the id `i`, when `i` is not yet
recorded, records that item. -/
theorem dedupeStep_lookup_self {i : String} {e : Item}
    (he : dget e "id" = some (.str i)) (hi : i ≠ "")
    (m : List (String × Item)) (hl : m.lookup i = Option.none) :
    (dedupeStep m e).lookup i = some e := by
  unfold dedupeStep
  rw [he]
  dsimp only
  rw [if_neg hi, hl]
  exact lookup_assocUpd_self _ _ _

/-- Folding the dedupe over items none of which carries the id `i` leaves
the lookup at `i` unchanged. -/
theorem dedupeFold_lookup_ne {i : String} :
    ∀ (l : List Item) (by_id : List (String × Item)),
      (∀ x ∈ l, dget x "id" ≠ some (.str i)) →
      (List.foldl dedupeStep by_id l).lookup i = by_id.lookup i := by
  intro l
  induction l with
  | nil => intro by_id _; rfl
  | cons x rest ih =>
    intro by_id h
    rw [List.foldl_cons, ih _ (fun y hy => h y (List.mem_cons_of_mem _ hy)),
      dedupeStep_lookup_ne by_id x (h x (List.mem_cons_self _ _))]

/-- If exactly one entry of the stale list carries the id `i`, it survives
the dedupe. -/
theorem dedupe_unique_mem {i : String} {e : Item}
    (he : dget e "id" = some (.str i)) (hi : i ≠ "")
    (l1 l2 : List Item)
    (h1 : ∀ x ∈ l1, dget x "id" ≠ some (.str i))
    (h2 : ∀ x ∈ l2, dget x "id" ≠ some (.str i)) :
    e ∈ dedupeStale (l1 ++ e :: l2) := by
  unfold dedupeStale
  rw [List.foldl_append, List.foldl_cons]
  have hl1 : (List.foldl dedupeStep [] l1).lookup i = Option.none :=
    dedupeFold_lookup_ne l1 [] h1
  have hstep : (dedupeStep (List.foldl dedupeStep [] l1) e).lookup i = some e :=
    dedupeStep_lookup_self he hi _ hl1
  have hfinal :
      (List.foldl dedupeStep (dedupeStep (List.foldl dedupeStep [] l1) e) l2).lookup i
        = some e := by
    rw [dedupeFold_lookup_ne l2 _ h2, hstep]
  exact mem_values_of_lookup hfinal


/-- `staleVersion` keeps the item's id. -/
theorem staleVersion_id (x : Item) : dget (staleVersion x) "id" = dget x "id" := by
  unfold staleVersion
  rw [dget_dset_ne _ _ (by decide : ("id" : String) ≠ "confidence"),
    dget_dset_ne _ _ (by decide : ("id" : String) ≠ "status")]

/-- `staleVersion` forces status `"stale"`. -/
theorem staleVersion_status (x : Item) :
    dget (staleVersion x) "status" = some (.str "stale") := by
  unfold staleVersion
  rw [dget_dset_ne _ _ (by decide : ("status" : String) ≠ "confidence"),
    dget_dset_self]

/-- `staleVersion` caps the confidence at `min(current or 0.0, 0.35)`. -/
theorem staleVersion_confidence (x : Item) :
    dget (staleVersion x) "confidence"
      = some (.num (min (pyFloat (pyOr (getV x "confidence") (.num 0.0))) 0.35)) := by
  unfold staleVersion
  rw [dget_dset_self]
  have : getV (dset x "status" (.str "stale")) "confidence" = getV x "confidence" := by
    unfold getV dgetD
    rw [dget_dset_ne _ _ (by decide : ("confidence" : String) ≠ "status")]
  rw [this]

/-- Every stale addition takes its id from some source item. -/
theorem staleAdds_id {now_dt : DateTime} {l : List Item} {x' : Item}
    (h : x' ∈ staleAdds now_dt l) : ∃ x ∈ l, dget x' "id" = dget x "id" := by
  unfold staleAdds at h
  obtain ⟨x, hx, hfx⟩ := List.mem_filterMap.mp h
  refine ⟨x, hx, ?_⟩
  by_cases h1 : statusIs x "retracted" = true
  · rw [if_pos h1] at hfx
    injection hfx with hfx'
    rw [← hfx', dget_dset_ne _ _ (by decide : ("id" : String) ≠ "status")]
  · rw [if_neg h1] at hfx
    by_cases h2 : is_expired now_dt x = true
    · rw [if_pos h2] at hfx
      injection hfx with hfx'
      rw [← hfx', staleVersion_id]
    · rw [if_neg h2] at hfx
      exact Option.noConfusion hfx

/-- Splitting the stale additions around an expired, non-retracted item. -/
theorem staleAdds_split {now_dt : DateTime} {it : Item} (l1 l2 : List Item)
    (hstatus : statusIs it "retracted" = false)
    (hexp : is_expired now_dt it = true) :
    staleAdds now_dt (l1 ++ it :: l2)
      = staleAdds now_dt l1 ++ staleVersion it :: staleAdds now_dt l2 := by
  unfold staleAdds
  rw [List.filterMap_append, List.filterMap_cons]
  rw [if_neg (by simp [hstatus]), if_pos hexp]

/-- The decay pass in closed form. -/
theorem decay_pass_eq (now_dt : DateTime) (hy ol cm stale0 : List Item) :
    decay_pass now_dt hy ol cm stale0
      = (decayKeep now_dt hy, decayKeep now_dt ol, decayKeep now_dt cm,
        dedupeStale (stale0 ++ staleAdds now_dt hy ++ staleAdds now_dt ol
          ++ staleAdds now_dt cm)) := by
  unfold decay_pass
  rw [move_to_stale_eq, move_to_stale_eq, move_to_stale_eq]

/-- **C5** (amended).  After the decay pass of a merge, an expired,
non-retracted item sitting in any of the three decayed sections —
`hypotheses`, `open_loops`, or `candidate_moves` (an item mentioned in the
proposal is never expired, its TTL having just been renewed) — is removed
from its active section; and provided no other item — in the other two
decayed sections, the rest of its own section, or the pre-existing
`stale_items` — carries its id, its stale copy appears in the persisted
`stale_items` with status `"stale"` and confidence
`min(current confidence or 0.0, 0.35) ≤ 0.35`.  (Without that uniqueness
proviso the stale dedupe may instead retain a pre-existing entry with the
same id and a lexicographically greater `last_seen`.)  Moreover
`confirmed_facts` are never demoted by this pass: the persisted
`confirmed_facts` are exactly the processed merge output, untouched by
decay. -/
theorem C5_expired_unrefreshed_demoted (now_dt : DateTime)
    (a b stale0 l1 l2 : List Item) (it : Item) (i : String)
    (hstatus : statusIs it "retracted" = false)
    (hexp : is_expired now_dt it = true)
    (hid : dget it "id" = some (.str i)) (hi : i ≠ "")
    (huniq : ∀ x ∈ stale0 ++ l1 ++ l2 ++ a ++ b, dget x "id" ≠ some (.str i)) :
    (dget (staleVersion it) "id" = some (.str i)
      ∧ dget (staleVersion it) "status" = some (.str "stale")
      ∧ dget (staleVersion it) "confidence"
          = some (.num (min (pyFloat (pyOr (getV it "confidence") (.num 0.0))) 0.35))
      ∧ min (pyFloat (pyOr (getV it "confidence") (.num 0.0))) 0.35 ≤ 0.35)
    ∧ (it ∉ (decay_pass now_dt (l1 ++ it :: l2) a b stale0).1
      ∧ staleVersion it ∈ (decay_pass now_dt (l1 ++ it :: l2) a b stale0).2.2.2)
    ∧ (it ∉ (decay_pass now_dt a (l1 ++ it :: l2) b stale0).2.1
      ∧ staleVersion it ∈ (decay_pass now_dt a (l1 ++ it :: l2) b stale0).2.2.2)
    ∧ (it ∉ (decay_pass now_dt a b (l1 ++ it :: l2) stale0).2.2.1
      ∧ staleVersion it ∈ (decay_pass now_dt a b (l1 ++ it :: l2) stale0).2.2.2)
    ∧ ∀ (fs : FS) (workspace : String) (scope : String) (prev : Option Model)
        (proposal : Proposal) (vs : Bool) (m : Model),
        buildModel fs workspace now_dt scope prev proposal vs = .ok m →
        process_section fs workspace now_dt
            (prev.getD (ensure_model_skeleton scope now_dt)).do_not_store vs
            "confirmed_facts" 365
            (_merge_list (prev.getD (ensure_model_skeleton scope now_dt)).confirmed_facts
              proposal.confirmed_facts)
          = .ok m.confirmed_facts := by
  have hsv_id : dget (staleVersion it) "id" = some (.str i) := staleVersion_id it ▸ hid
  have hnotin : it ∉ decayKeep now_dt (l1 ++ it :: l2) := by
    intro hmem
    unfold decayKeep at hmem
    have := (List.mem_filter.mp hmem).2
    rw [hstatus, hexp] at this
    simp at this
  have hsplit := @staleAdds_split now_dt it l1 l2 hstatus hexp
  have huniq' : ∀ {l : List Item}, (∀ x ∈ l, dget x "id" ≠ some (.str i)) →
      ∀ x' ∈ staleAdds now_dt l, dget x' "id" ≠ some (.str i) := by
    intro l hl x' hx'
    obtain ⟨x, hx, hx'id⟩ := staleAdds_id hx'
    rw [hx'id]
    exact hl x hx
  have h0 : ∀ x ∈ stale0, dget x "id" ≠ some (.str i) := by
    intro x hx
    exact huniq x (by simp [hx])
  have hL1 : ∀ x ∈ l1, dget x "id" ≠ some (.str i) := by
    intro x hx
    exact huniq x (by simp [hx])
  have hL2 : ∀ x ∈ l2, dget x "id" ≠ some (.str i) := by
    intro x hx
    exact huniq x (by simp [hx])
  have hA : ∀ x ∈ a, dget x "id" ≠ some (.str i) := by
    intro x hx
    exact huniq x (by simp [hx])
  have hB : ∀ x ∈ b, dget x "id" ≠ some (.str i) := by
    intro x hx
    exact huniq x (by simp [hx])
  refine ⟨⟨hsv_id, staleVersion_status it, staleVersion_confidence it, min_le_right _ _⟩,
    ⟨?_, ?_⟩, ⟨?_, ?_⟩, ⟨?_, ?_⟩, ?_⟩
  · rw [decay_pass_eq]
    exact hnotin
  · rw [decay_pass_eq]
    dsimp only
    rw [hsplit]
    have hrearr : stale0 ++ (staleAdds now_dt l1 ++ staleVersion it :: staleAdds now_dt l2)
        ++ staleAdds now_dt a ++ staleAdds now_dt b
        = (stale0 ++ staleAdds now_dt l1) ++ staleVersion it
          :: (staleAdds now_dt l2 ++ staleAdds now_dt a ++ staleAdds now_dt b) := by
      simp
    rw [hrearr]
    refine dedupe_unique_mem hsv_id hi _ _ ?_ ?_
    · intro x hx
      rcases List.mem_append.mp hx with hx0 | hx1
      · exact h0 x hx0
      · exact huniq' hL1 x hx1
    · intro x hx
      rcases List.mem_append.mp hx with hx' | hxb
      · rcases List.mem_append.mp hx' with hx2 | hxa
        · exact huniq' hL2 x hx2
        · exact huniq' hA x hxa
      · exact huniq' hB x hxb
  · rw [decay_pass_eq]
    exact hnotin
  · rw [decay_pass_eq]
    dsimp only
    rw [hsplit]
    have hrearr : stale0 ++ staleAdds now_dt a
        ++ (staleAdds now_dt l1 ++ staleVersion it :: staleAdds now_dt l2)
        ++ staleAdds now_dt b
        = (stale0 ++ staleAdds now_dt a ++ staleAdds now_dt l1) ++ staleVersion it
          :: (staleAdds now_dt l2 ++ staleAdds now_dt b) := by
      simp
    rw [hrearr]
    refine dedupe_unique_mem hsv_id hi _ _ ?_ ?_
    · intro x hx
      rcases List.mem_append.mp hx with hx' | hx1
      · rcases List.mem_append.mp hx' with hx0 | hxa
        · exact h0 x hx0
        · exact huniq' hA x hxa
      · exact huniq' hL1 x hx1
    · intro x hx
      rcases List.mem_append.mp hx with hx2 | hxb
      · exact huniq' hL2 x hx2
      · exact huniq' hB x hxb
  · rw [decay_pass_eq]
    exact hnotin
  · rw [decay_pass_eq]
    dsimp only
    rw [hsplit]
    have hrearr : stale0 ++ staleAdds now_dt a ++ staleAdds now_dt b
        ++ (staleAdds now_dt l1 ++ staleVersion it :: staleAdds now_dt l2)
        = (stale0 ++ staleAdds now_dt a ++ staleAdds now_dt b ++ staleAdds now_dt l1)
          ++ staleVersion it :: staleAdds now_dt l2 := by
      simp
    rw [hrearr]
    refine dedupe_unique_mem hsv_id hi _ _ ?_ ?_
    · intro x hx
      rcases List.mem_append.mp hx with hx' | hx1
      · rcases List.mem_append.mp hx' with hx'' | hxb
        · rcases List.mem_append.mp hx'' with hx0 | hxa
          · exact h0 x hx0
          · exact huniq' hA x hxa
        · exact huniq' hB x hxb
      · exact huniq' hL1 x hx1
    · intro x hx
      exact huniq' hL2 x hx
  · intro fs workspace scope prev proposal vs m h
    unfold buildModel at h
    split_ifs at h with hscope
    all_goals try exact Except.noConfusion h
    dsimp only at h
    split at h
    all_goals try exact Except.noConfusion h
    split at h
    all_goals try exact Except.noConfusion h
    split at h
    all_goals try exact Except.noConfusion h
    split at h
    all_goals try exact Except.noConfusion h
    rename_i x1 cfP hcf x2 hyP hhy x3 olP hol x4 cmP hcm
    injection h with h'
    rw [← h']
    exact hcf


/-- **C5** (counterexample).  The claim promises that an expired,
unrefreshed item appears in `stale_items` with confidence
`min(current, 0.35) ≤ 0.35`.  But the stale dedupe keeps, per id, the entry
with the lexicographically greatest `last_seen` string: here a pre-existing
stale entry for `h-exp` has `last_seen` `2026-01-01T10:00:00+09:00` — an
earlier instant than the expired item's `2026-01-01T05:00:00+00:00`, but
the greater string — so the persisted `stale_items` keeps only the old
entry, whose confidence is 0.9 > 0.35. -/
theorem C5_counterexample :
    is_expired tNow c5_exp = true
      ∧ statusIs c5_exp "retracted" = false
      ∧ decay_pass tNow [c5_exp] [] [] [c5_old] = ([], [], [], [c5_old])
      ∧ dget c5_old "confidence" = some (.num 0.9)
      ∧ ¬ ((0.9 : ℝ) ≤ 0.35) :=
  ⟨rfl, rfl, rfl, rfl, by norm_num⟩

/-- Witness for C5: the expired hypothesis `c5_exp`, alone in its model,
is demoted into `stale_items` with status stale and capped confidence; and
a concrete successful merge leaves `confirmed_facts` exactly as processed. -/
theorem C5_expired_unrefreshed_demoted_witness :
    (dget (staleVersion c5_exp) "id" = some (.str "h-exp")
      ∧ dget (staleVersion c5_exp) "status" = some (.str "stale")
      ∧ dget (staleVersion c5_exp) "confidence"
          = some (.num (min (pyFloat (pyOr (getV c5_exp "confidence") (.num 0.0))) 0.35))
      ∧ min (pyFloat (pyOr (getV c5_exp "confidence") (.num 0.0))) 0.35 ≤ 0.35)
    ∧ (c5_exp ∉ (decay_pass tNow ([] ++ c5_exp :: []) [] [] []).1
      ∧ staleVersion c5_exp ∈ (decay_pass tNow ([] ++ c5_exp :: []) [] [] []).2.2.2)
    ∧ (c5_exp ∉ (decay_pass tNow [] ([] ++ c5_exp :: []) [] []).2.1
      ∧ staleVersion c5_exp ∈ (decay_pass tNow [] ([] ++ c5_exp :: []) [] []).2.2.2)
    ∧ (c5_exp ∉ (decay_pass tNow [] [] ([] ++ c5_exp :: []) []).2.2.1
      ∧ staleVersion c5_exp ∈ (decay_pass tNow [] [] ([] ++ c5_exp :: []) []).2.2.2)
    ∧ process_section [] "/ws" tNow
        ((Option.none : Option Model).getD (ensure_model_skeleton "s" tNow)).do_not_store
        true "confirmed_facts" 365
        (_merge_list
          ((Option.none : Option Model).getD (ensure_model_skeleton "s" tNow)).confirmed_facts
          emptyProposal.confirmed_facts)
      = .ok [] := by
  have h := C5_expired_unrefreshed_demoted tNow [] [] [] [] [] c5_exp "h-exp"
    rfl rfl rfl (by decide) (by intro x hx; simp at hx)
  refine ⟨h.1, h.2.1, h.2.2.1, h.2.2.2.1, ?_⟩
  exact h.2.2.2.2 [] "/ws" "s" Option.none emptyProposal true
    { scope := "s", updatedAt := "2026-02-22T01:00:00+01:00", confirmed_facts := [],
      hypotheses := [], stale_items := [], open_loops := [], candidate_moves := [],
      do_not_store := [] } rfl


/-- `getV` version of `dget_dset_ne`. -/
theorem getV_dset_ne (it : Item) {k k' : String} (v : Value) (h : k' ≠ k) :
    getV (dset it k v) k' = getV it k' := by
  unfold getV dgetD
  rw [dget_dset_ne it v h]

/-- `getV` version of `dget_dsetdefault_ne`. -/
theorem getV_dsetdefault_ne (it : Item) {k k' : String} (v : Value) (h : k' ≠ k) :
    getV (dsetdefault it k v) k' = getV it k' := by
  unfold getV dgetD
  rw [dget_dsetdefault_ne it v h]

/-- `getV` version of `dget_dpop_ne`. -/
theorem getV_dpop_ne (it : Item) {k k' : String} (h : k' ≠ k) :
    getV (dpop it k) k' = getV it k' := by
  unfold getV dgetD
  rw [dget_dpop_ne it h]

/-- `normalize_item_common` only writes `first_seen`, `last_seen`,
`ttl_days`, `expires_at` and `status`. -/
theorem dget_normalize_item_common_ne (item : Item) (now_dt : DateTime)
    (ttl : Int) (keep : Value) {k : String}
    (h1 : k ≠ "first_seen") (h2 : k ≠ "last_seen") (h3 : k ≠ "ttl_days")
    (h4 : k ≠ "expires_at") (h5 : k ≠ "status") :
    dget (normalize_item_common item now_dt ttl keep) k = dget item k := by
  unfold normalize_item_common
  rw [dget_dsetdefault_ne _ _ h5, dget_dset_ne _ _ h4, dget_dpop_ne _ h3,
    dget_dset_ne _ _ h2, dget_dsetdefault_ne _ _ h1]

/-- `normalize_for_section` only writes bookkeeping keys. -/
theorem dget_normalize_for_section_ne (sec : String) (now_dt : DateTime)
    (ttl : Int) (it : Item) (keep : Value) (r : Bool) {k : String}
    (h1 : k ≠ "first_seen") (h2 : k ≠ "last_seen") (h3 : k ≠ "ttl_days")
    (h4 : k ≠ "expires_at") (h5 : k ≠ "status") (h6 : k ≠ "confidence")
    (h7 : k ≠ "last_confirmed") (h8 : k ≠ "user_confirmed") (h9 : k ≠ "conflicts") :
    dget (normalize_for_section sec now_dt ttl it keep r) k = dget it k := by
  unfold normalize_for_section
  by_cases hsec : sec = "confirmed_facts"
  · rw [if_pos hsec]
    dsimp only
    by_cases hr : r = true
    · rw [if_pos hr]
      rw [dget_dsetdefault_ne _ _ h5, dget_dsetdefault_ne _ _ h7,
        dget_dset_ne _ _ h4, dget_dpop_ne _ h3, dget_dset_ne _ _ h2,
        dget_dsetdefault_ne _ _ h1, dget_dsetdefault_ne _ _ h6]
    · rw [if_neg hr]
      rw [dget_dsetdefault_ne _ _ h5, dget_dsetdefault_ne _ _ h7,
        dget_dsetdefault_ne _ _ h4, dget_dsetdefault_ne _ _ h2,
        dget_dsetdefault_ne _ _ h1, dget_dsetdefault_ne _ _ h6]
  · rw [if_neg hsec]
    by_cases hr : r = true
    · rw [if_pos hr]
      dsimp only
      rw [dget_dpop_ne _ h9, dget_dpop_ne _ h8, dget_dset_ne _ _ h6,
        dget_normalize_item_common_ne _ _ _ _ h1 h2 h3 h4 h5]
    · rw [if_neg hr]
      dsimp only
      rw [dget_dsetdefault_ne _ _ h6, dget_dsetdefault_ne _ _ h5,
        dget_dsetdefault_ne _ _ h4, dget_dsetdefault_ne _ _ h2,
        dget_dsetdefault_ne _ _ h1]

/-- Normalisation changes neither the statement nor the fact text. -/
theorem stmtText_normalize (sec : String) (now_dt : DateTime) (ttl : Int)
    (it : Item) (keep : Value) (r : Bool) :
    stmtText (normalize_for_section sec now_dt ttl it keep r) = stmtText it := by
  unfold stmtText getV dgetD
  rw [dget_normalize_for_section_ne sec now_dt ttl it keep r
      (by decide) (by decide) (by decide) (by decide) (by decide) (by decide)
      (by decide) (by decide) (by decide),
    dget_normalize_for_section_ne sec now_dt ttl it keep r
      (by decide) (by decide) (by decide) (by decide) (by decide) (by decide)
      (by decide) (by decide) (by decide)]

/-- Normalisation keeps the id. -/
theorem dget_normalize_id (sec : String) (now_dt : DateTime) (ttl : Int)
    (it : Item) (keep : Value) (r : Bool) :
    dget (normalize_for_section sec now_dt ttl it keep r) "id" = dget it "id" :=
  dget_normalize_for_section_ne sec now_dt ttl it keep r
    (by decide) (by decide) (by decide) (by decide) (by decide) (by decide)
    (by decide) (by decide) (by decide)

/-- The marker pops change neither the text nor the id. -/
theorem stmtText_dpop_markers (it : Item) :
    stmtText (dpop (dpop it "_keep_first_seen") "_refreshed") = stmtText it := by
  unfold stmtText getV dgetD
  rw [dget_dpop_ne _ (by decide), dget_dpop_ne _ (by decide),
    dget_dpop_ne _ (by decide), dget_dpop_ne _ (by decide)]

/-- A successful, non-dropping `process_item` yields an item with the same
statement/fact text (still passing the filter) and the same id. -/
theorem process_item_some {fs : FS} {workspace : String} {now_dt : DateTime}
    {dns : List Item} {vs : Bool} {sec : String} {ttl : Int} {it out : Item}
    (heq : process_item fs workspace now_dt dns vs sec ttl it = .ok (some out)) :
    matches_do_not_store (stmtText out) dns = Option.none
      ∧ stmtText out = stmtText it
      ∧ dget out "id" = dget it "id" := by
  unfold process_item at heq
  split at heq
  · injection heq with h'
    exact Option.noConfusion h'
  · rename_i hmatch
    dsimp only at heq
    split at heq
    · exact Except.noConfusion heq
    · injection heq with h'
      injection h' with h''
      have hstmt : stmtText out = stmtText it := by
        rw [← h'', stmtText_normalize, stmtText_dpop_markers]
      have hid : dget out "id" = dget it "id" := by
        rw [← h'', dget_normalize_id, dget_dpop_ne _ (by decide),
          dget_dpop_ne _ (by decide)]
      exact ⟨by rw [hstmt, hmatch], hstmt, hid⟩

/-- A successful section run evaluates every item without error and
returns exactly the non-dropped normalised items, in order. -/
theorem process_section_ok_elim {fs : FS} {workspace : String} {now_dt : DateTime}
    {dns : List Item} {vs : Bool} {sec : String} {ttl : Int} :
    ∀ {items outs : List Item},
      process_section fs workspace now_dt dns vs sec ttl items = .ok outs →
      outs = items.filterMap (process_pure fs workspace now_dt dns vs sec ttl)
        ∧ ∀ it ∈ items, ∃ o, process_item fs workspace now_dt dns vs sec ttl it = .ok o
          ∧ process_pure fs workspace now_dt dns vs sec ttl it = o := by
  intro items
  induction items with
  | nil =>
    intro outs h
    injection h with h'
    exact ⟨h'.symm, by intro it hit; cases hit⟩
  | cons it rest ih =>
    intro outs h
    unfold process_section at h
    split at h
    · exact Except.noConfusion h
    · rename_i heq
      obtain ⟨houts, hall⟩ := ih h
      have hpure : process_pure fs workspace now_dt dns vs sec ttl it = Option.none := by
        unfold process_pure
        rw [heq]
      constructor
      · rw [List.filterMap_cons, hpure, houts]
      · intro x hx
        rcases List.mem_cons.mp hx with rfl | hx'
        · exact ⟨Option.none, heq, hpure⟩
        · exact hall x hx'
    · rename_i out heq
      split at h
      · exact Except.noConfusion h
      · rename_i outs' houts'
        injection h with h'
        obtain ⟨hrest, hall⟩ := ih houts'
        have hpure : process_pure fs workspace now_dt dns vs sec ttl it = some out := by
          unfold process_pure
          rw [heq]
        constructor
        · rw [← h', List.filterMap_cons, hpure, hrest]
        · intro x hx
          rcases List.mem_cons.mp hx with rfl | hx'
          · exact ⟨some out, heq, hpure⟩
          · exact hall x hx'

/-- `process_pure` returning `some` means `process_item` succeeded with
that very item. -/
theorem process_pure_some {fs : FS} {workspace : String} {now_dt : DateTime}
    {dns : List Item} {vs : Bool} {sec : String} {ttl : Int} {it out : Item}
    (h : process_pure fs workspace now_dt dns vs sec ttl it = some out) :
    process_item fs workspace now_dt dns vs sec ttl it = .ok (some out) := by
  unfold process_pure at h
  split at h
  · rename_i o heq
    rw [heq, h]
  · exact Option.noConfusion h

/-- Every item of a successfully processed section clears the
do-not-store filter. -/
theorem processed_mem_dns {fs : FS} {workspace : String} {now_dt : DateTime}
    {dns : List Item} {vs : Bool} {sec : String} {ttl : Int}
    {items outs : List Item}
    (h : process_section fs workspace now_dt dns vs sec ttl items = .ok outs) :
    ∀ out ∈ outs, matches_do_not_store (stmtText out) dns = Option.none := by
  obtain ⟨houts, -⟩ := process_section_ok_elim h
  intro out hout
  rw [houts] at hout
  obtain ⟨x, _, hpure⟩ := List.mem_filterMap.mp hout
  exact (process_item_some (process_pure_some hpure)).1

/-- Membership in the kept part of a decayed section implies membership
in the section. -/
theorem mem_decayKeep {now_dt : DateTime} {l : List Item} {x : Item}
    (hx : x ∈ decayKeep now_dt l) : x ∈ l := by
  unfold decayKeep at hx
  exact (List.mem_filter.mp hx).1

/-- Structure of a successful `buildModel` run: the four merged sections
process without error, and the persisted model is built from the
processed sections and the decay pass. -/
theorem buildModel_ok_elim {fs : FS} {workspace : String} {now_dt : DateTime}
    {scope : String} {prev : Option Model} {proposal : Proposal} {vs : Bool} {m : Model}
    (h : buildModel fs workspace now_dt scope prev proposal vs = .ok m) :
    ∃ cfP hyP olP cmP : List Item,
      process_section fs workspace now_dt
          (prev.getD (ensure_model_skeleton scope now_dt)).do_not_store vs
          "confirmed_facts" 365
          (_merge_list (prev.getD (ensure_model_skeleton scope now_dt)).confirmed_facts
            proposal.confirmed_facts) = .ok cfP
      ∧ process_section fs workspace now_dt
          (prev.getD (ensure_model_skeleton scope now_dt)).do_not_store vs
          "hypotheses" 21
          (_merge_list (prev.getD (ensure_model_skeleton scope now_dt)).hypotheses
            proposal.hypotheses) = .ok hyP
      ∧ process_section fs workspace now_dt
          (prev.getD (ensure_model_skeleton scope now_dt)).do_not_store vs
          "open_loops" 14
          (_merge_list (prev.getD (ensure_model_skeleton scope now_dt)).open_loops
            proposal.open_loops) = .ok olP
      ∧ process_section fs workspace now_dt
          (prev.getD (ensure_model_skeleton scope now_dt)).do_not_store vs
          "candidate_moves" 7
          (_merge_list (prev.getD (ensure_model_skeleton scope now_dt)).candidate_moves
            proposal.candidate_moves) = .ok cmP
      ∧ m = { scope := (prev.getD (ensure_model_skeleton scope now_dt)).scope,
              updatedAt := isoformat now_dt,
              confirmed_facts := cfP,
              hypotheses := (decay_pass now_dt hyP olP cmP
                (prev.getD (ensure_model_skeleton scope now_dt)).stale_items).1,
              stale_items := (decay_pass now_dt hyP olP cmP
                (prev.getD (ensure_model_skeleton scope now_dt)).stale_items).2.2.2,
              open_loops := (decay_pass now_dt hyP olP cmP
                (prev.getD (ensure_model_skeleton scope now_dt)).stale_items).2.1,
              candidate_moves := (decay_pass now_dt hyP olP cmP
                (prev.getD (ensure_model_skeleton scope now_dt)).stale_items).2.2.1,
              do_not_store :=
                (prev.getD (ensure_model_skeleton scope now_dt)).do_not_store } := by
  unfold buildModel at h
  split_ifs at h with hscope
  all_goals try exact Except.noConfusion h
  dsimp only at h
  split at h
  all_goals try exact Except.noConfusion h
  split at h
  all_goals try exact Except.noConfusion h
  split at h
  all_goals try exact Except.noConfusion h
  split at h
  all_goals try exact Except.noConfusion h
  rename_i x1 cfP hcf x2 hyP hhy x3 olP hol x4 cmP hcm
  injection h with h'
  exact ⟨cfP, hyP, olP, cmP, hcf, hhy, hol, hcm, h'.symm⟩

/-- **C4** (counterexample).  The claim says a matching item never appears
anywhere in the persisted model, but pre-existing `stale_items` bypass the
filter: with the rule `secret` active, a stale item whose statement
contains `secret` survives a successful merge into the persisted
`stale_items`. -/
theorem C4_counterexample :
    matches_do_not_store (stmtText c4_secret_stale) c4_model2.do_not_store
        = some [("pattern", .str "secret")]
      ∧ buildModel c4_fs "/ws" tNow "s" (some c4_model2) emptyProposal true
          = .ok c4_m2res
      ∧ c4_secret_stale ∈ c4_m2res.stale_items :=
  ⟨rfl, rfl, List.Mem.head _⟩

/-- **C4** (amended).  In every successful merge, each item persisted in
the four active sections (`confirmed_facts`, `hypotheses`, `open_loops`,
`candidate_moves`) clears the active do-not-store filter: its
statement-or-fact text matches no rule.  Pre-existing `stale_items` are
carried over unfiltered.  Concretely (Scenario A): with
`do_not_store=[{pattern:"secret"}]` and a proposal adding the hypothesis
`This contains SECRET content.` with valid evidence, the merge succeeds
and the persisted `hypotheses` section is empty. -/
theorem C4_do_not_store_filter (fs : FS) (workspace : String) (now_dt : DateTime)
    (scope : String) (prev : Option Model) (proposal : Proposal) (vs : Bool) (m : Model)
    (h : buildModel fs workspace now_dt scope prev proposal vs = .ok m) :
    (∀ x, (x ∈ m.confirmed_facts ∨ x ∈ m.hypotheses ∨ x ∈ m.open_loops
        ∨ x ∈ m.candidate_moves) →
      matches_do_not_store (stmtText x)
        (prev.getD (ensure_model_skeleton scope now_dt)).do_not_store = Option.none)
    ∧ verify_evidence_sources (getEvidence c4_hyp) "/ws" c4_fs = .ok ()
    ∧ buildModel c4_fs "/ws" tNow "s" (some c4_model) c4_prop true = .ok c4_m1
    ∧ c4_m1.hypotheses = [] := by
  obtain ⟨cfP, hyP, olP, cmP, hcf, hhy, hol, hcm, hm⟩ := buildModel_ok_elim h
  refine ⟨?_, rfl, rfl, rfl⟩
  subst hm
  intro x hx
  rcases hx with hx | hx | hx | hx
  · exact processed_mem_dns hcf x hx
  · have h1 : x ∈ (decay_pass now_dt hyP olP cmP
        (prev.getD (ensure_model_skeleton scope now_dt)).stale_items).1 := hx
    rw [decay_pass_eq] at h1
    exact processed_mem_dns hhy x (mem_decayKeep h1)
  · have h1 : x ∈ (decay_pass now_dt hyP olP cmP
        (prev.getD (ensure_model_skeleton scope now_dt)).stale_items).2.1 := hx
    rw [decay_pass_eq] at h1
    exact processed_mem_dns hol x (mem_decayKeep h1)
  · have h1 : x ∈ (decay_pass now_dt hyP olP cmP
        (prev.getD (ensure_model_skeleton scope now_dt)).stale_items).2.2.1 := hx
    rw [decay_pass_eq] at h1
    exact processed_mem_dns hcm x (mem_decayKeep h1)

/-- Witness for C4: the Scenario A merge itself — every persisted active
item (there are none) clears the filter, the proposed evidence verifies,
and `hypotheses` comes out empty. -/
theorem C4_do_not_store_filter_witness :
    (∀ x, (x ∈ c4_m1.confirmed_facts ∨ x ∈ c4_m1.hypotheses ∨ x ∈ c4_m1.open_loops
        ∨ x ∈ c4_m1.candidate_moves) →
      matches_do_not_store (stmtText x)
        ((some c4_model).getD (ensure_model_skeleton "s" tNow)).do_not_store
          = Option.none)
    ∧ verify_evidence_sources (getEvidence c4_hyp) "/ws" c4_fs = .ok ()
    ∧ buildModel c4_fs "/ws" tNow "s" (some c4_model) c4_prop true = .ok c4_m1
    ∧ c4_m1.hypotheses = [] :=
  C4_do_not_store_filter c4_fs "/ws" tNow "s" (some c4_model) c4_prop true c4_m1 rfl

/-- A successful, non-dropping `process_item` returns exactly the
normalisation of the marker-popped item, with the markers read off the
input. -/
theorem process_item_ok_shape {fs : FS} {workspace : String} {now_dt : DateTime}
    {dns : List Item} {vs : Bool} {sec : String} {ttl : Int} {it out : Item}
    (heq : process_item fs workspace now_dt dns vs sec ttl it = .ok (some out)) :
    out = normalize_for_section sec now_dt ttl
      (dpop (dpop it "_keep_first_seen") "_refreshed")
      (dgetD it "_keep_first_seen" Value.none)
      (truthy (dgetD it "_refreshed" (.bool false))) := by
  unfold process_item at heq
  split at heq
  · injection heq with h'
    exact Option.noConfusion h'
  · dsimp only at heq
    split at heq
    · exact Except.noConfusion heq
    · injection heq with h'
      injection h' with h''
      exact h''.symm

/-- A refreshed item is normalised with `last_seen = now` and
`expires_at = now + max 1 ttl_days`, the ttl resolved from the item or the
section default. -/
theorem normalize_refreshed_expiry (sec : String) (now_dt : DateTime)
    (ttl : Int) (it : Item) (keep : Value) {r : Bool} (hr : r = true) :
    dget (normalize_for_section sec now_dt ttl it keep r) "expires_at"
        = some (.str (isoformat (addDays now_dt
            (max 1 (pyInt (pyOr (getV it "ttl_days") (.num ttl)))))))
      ∧ dget (normalize_for_section sec now_dt ttl it keep r) "last_seen"
        = some (.str (isoformat now_dt)) := by
  unfold normalize_for_section normalize_item_common
  dsimp only
  by_cases hsec : sec = "confirmed_facts"
  · rw [if_pos hsec, if_pos hr]
    constructor
    · rw [dget_dsetdefault_ne _ _ (by decide), dget_dsetdefault_ne _ _ (by decide),
        dget_dset_self, getV_dset_ne _ _ (by decide),
        getV_dsetdefault_ne _ _ (by decide), getV_dsetdefault_ne _ _ (by decide)]
    · rw [dget_dsetdefault_ne _ _ (by decide), dget_dsetdefault_ne _ _ (by decide),
        dget_dset_ne _ _ (by decide), dget_dpop_ne _ (by decide), dget_dset_self]
  · rw [if_neg hsec, if_pos hr]
    constructor
    · rw [dget_dpop_ne _ (by decide), dget_dpop_ne _ (by decide),
        dget_dset_ne _ _ (by decide), dget_dsetdefault_ne _ _ (by decide),
        dget_dset_self, getV_dset_ne _ _ (by decide),
        getV_dsetdefault_ne _ _ (by decide)]
    · rw [dget_dpop_ne _ (by decide), dget_dpop_ne _ (by decide),
        dget_dset_ne _ _ (by decide), dget_dsetdefault_ne _ _ (by decide),
        dget_dset_ne _ _ (by decide), dget_dpop_ne _ (by decide), dget_dset_self]

/-- An unrefreshed item keeps an already-present `expires_at` through
normalisation. -/
theorem normalize_unrefreshed_expires (sec : String) (now_dt : DateTime)
    (ttl : Int) (it : Item) (keep : Value) {r : Bool} (hr : r = false)
    {v : Value} (h : dget it "expires_at" = some v) :
    dget (normalize_for_section sec now_dt ttl it keep r) "expires_at" = some v := by
  have hr' : ¬ r = true := by rw [hr]; exact Bool.false_ne_true
  unfold normalize_for_section
  dsimp only
  by_cases hsec : sec = "confirmed_facts"
  · rw [if_pos hsec, if_neg hr']
    rw [dget_dsetdefault_ne _ _ (by decide), dget_dsetdefault_ne _ _ (by decide)]
    exact dget_dsetdefault_of_present _ _ _ _ (by
      rw [dget_dsetdefault_ne _ _ (by decide), dget_dsetdefault_ne _ _ (by decide),
        dget_dsetdefault_ne _ _ (by decide)]
      exact h)
  · rw [if_neg hsec, if_neg hr']
    rw [dget_dsetdefault_ne _ _ (by decide), dget_dsetdefault_ne _ _ (by decide)]
    exact dget_dsetdefault_of_present _ _ _ _ (by
      rw [dget_dsetdefault_ne _ _ (by decide), dget_dsetdefault_ne _ _ (by decide)]
      exact h)

/-- Every entry produced by the proposal half of a merge carries the
`_refreshed = true` marker. -/
theorem mergeProposed_refreshed (curIdx : List (String × Item)) :
    ∀ proposed p, p ∈ mergeProposed curIdx proposed →
      dget p "_refreshed" = some (.bool true) := by
  intro proposed
  induction proposed with
  | nil =>
    intro p hp
    simp only [mergeProposed] at hp
    cases hp
  | cons q rest ih =>
    intro p hp
    simp only [mergeProposed] at hp
    split at hp
    · split at hp
      · exact ih p hp
      · rcases List.mem_cons.mp hp with rfl | hp'
        · exact dget_dset_self _ _ _
        · exact ih p hp'
    · exact ih p hp

/-- A current item with a truthy id not mentioned by the proposal is kept
by `_merge_list`, marked `_refreshed = false`. -/
theorem merge_list_kept (current proposed : List Item) (c : Item) (s : String)
    (hc : c ∈ current) (hid : dget c "id" = some (.str s)) (hs : s ≠ "")
    (hnp : s ∉ proposedIds proposed) :
    dset c "_refreshed" (.bool false) ∈ _merge_list current proposed := by
  unfold _merge_list
  dsimp only
  refine List.mem_append.mpr (Or.inr (List.mem_filterMap.mpr ⟨c, hc, ?_⟩))
  dsimp only
  rw [hid]
  dsimp only
  rw [if_neg (fun h => h.elim hs hnp)]

/-- **C7** (confirmed).  An item that reaches the persisted model refreshed
(its id was in the proposal, so the merge marked it `_refreshed = true`)
gets `expires_at = now + max(1, ttl_days)` with the ttl resolved from the
item or the section default, and `last_seen = now`; an unrefreshed item
(kept by the merge with `_refreshed = false`, which preserves its keys)
keeps its previously persisted `expires_at` unchanged through processing. -/
theorem C7_refresh_expiry (fs : FS) (workspace : String) (now_dt : DateTime)
    (dns : List Item) (vs : Bool) (sec : String) (ttl : Int) (it out : Item)
    (h : process_item fs workspace now_dt dns vs sec ttl it = .ok (some out)) :
    (truthy (dgetD it "_refreshed" (.bool false)) = true →
        dget out "expires_at" = some (.str (isoformat (addDays now_dt
            (max 1 (pyInt (pyOr (getV it "ttl_days") (.num ttl)))))))
          ∧ dget out "last_seen" = some (.str (isoformat now_dt)))
    ∧ (truthy (dgetD it "_refreshed" (.bool false)) = false →
        ∀ v, dget it "expires_at" = some v → dget out "expires_at" = some v)
    ∧ (∀ curIdx proposed p, p ∈ mergeProposed curIdx proposed →
        truthy (dgetD p "_refreshed" (.bool false)) = true)
    ∧ (∀ current proposed c s, c ∈ current → dget c "id" = some (.str s) → s ≠ "" →
        s ∉ proposedIds proposed →
          dset c "_refreshed" (.bool false) ∈ _merge_list current proposed
            ∧ dget (dset c "_refreshed" (.bool false)) "expires_at" = dget c "expires_at"
            ∧ truthy (dgetD (dset c "_refreshed" (.bool false)) "_refreshed"
                (.bool false)) = false) := by
  have hshape := process_item_ok_shape h
  refine ⟨?_, ?_, ?_, ?_⟩
  · intro hr
    rw [hshape]
    have he := normalize_refreshed_expiry sec now_dt ttl
      (dpop (dpop it "_keep_first_seen") "_refreshed")
      (dgetD it "_keep_first_seen" Value.none) hr
    constructor
    · rw [he.1, getV_dpop_ne _ (by decide), getV_dpop_ne _ (by decide)]
    · exact he.2
  · intro hr v hv
    rw [hshape]
    exact normalize_unrefreshed_expires sec now_dt ttl _ _ hr
      (by rw [dget_dpop_ne _ (by decide), dget_dpop_ne _ (by decide)]; exact hv)
  · intro curIdx proposed p hp
    have hm := mergeProposed_refreshed curIdx proposed p hp
    unfold dgetD
    rw [hm]
    rfl
  · intro current proposed c s hc hid hs hnp
    refine ⟨merge_list_kept current proposed c s hc hid hs hnp,
      dget_dset_ne _ _ (by decide), ?_⟩
    unfold dgetD
    rw [dget_dset_self]
    rfl

/-- Witness for C7: the concrete unrefreshed hypothesis `c7_item`
processed successfully into `c7_out`. -/
theorem C7_refresh_expiry_witness :
    ((truthy (dgetD c7_item "_refreshed" (.bool false)) = true →
        dget c7_out "expires_at" = some (.str (isoformat (addDays tNow
            (max 1 (pyInt (pyOr (getV c7_item "ttl_days") (.num 21)))))))
          ∧ dget c7_out "last_seen" = some (.str (isoformat tNow)))
      ∧ (truthy (dgetD c7_item "_refreshed" (.bool false)) = false →
          ∀ v, dget c7_item "expires_at" = some v → dget c7_out "expires_at" = some v)
      ∧ (∀ curIdx proposed p, p ∈ mergeProposed curIdx proposed →
          truthy (dgetD p "_refreshed" (.bool false)) = true)
      ∧ (∀ current proposed c s, c ∈ current → dget c "id" = some (.str s) → s ≠ "" →
          s ∉ proposedIds proposed →
            dset c "_refreshed" (.bool false) ∈ _merge_list current proposed
              ∧ dget (dset c "_refreshed" (.bool false)) "expires_at"
                  = dget c "expires_at"
              ∧ truthy (dgetD (dset c "_refreshed" (.bool false)) "_refreshed"
                  (.bool false)) = false)) :=
  C7_refresh_expiry [] "/ws" tNow [] false "hypotheses" 21 c7_item c7_out rfl

/-- A non-empty `itemId` pins down the stored id. -/
theorem itemId_eq_of_ne {it : Item} {s : String} (h : itemId it = s) (hs : s ≠ "") :
    dget it "id" = some (.str s) := by
  unfold itemId at h
  split at h
  · rename_i s' heq
    rw [heq, h]
  · exact absurd h.symm hs

/-- `itemId` from a stored string id. -/
theorem itemId_of_dget {it : Item} {s : String} (h : dget it "id" = some (.str s)) :
    itemId it = s := by
  unfold itemId
  rw [h]

/-- Setting an unrelated key keeps the id. -/
theorem itemId_dset_ne (it : Item) {k : String} (v : Value) (h : ("id" : String) ≠ k) :
    itemId (dset it k v) = itemId it := by
  unfold itemId
  rw [dget_dset_ne _ _ h]

/-- Setting a key other than `statement`/`fact` keeps the filter text. -/
theorem stmtText_dset_ne (it : Item) {k : String} (v : Value)
    (h1 : ("statement" : String) ≠ k) (h2 : ("fact" : String) ≠ k) :
    stmtText (dset it k v) = stmtText it := by
  unfold stmtText getV dgetD
  rw [dget_dset_ne _ _ h1, dget_dset_ne _ _ h2]

/-- A successful lookup pins down a member pair. -/
theorem lookup_mem {α : Type} : ∀ {m : List (String × α)} {k : String} {v : α},
    m.lookup k = some v → (k, v) ∈ m := by
  intro m
  induction m with
  | nil =>
    intro k v h
    exact Option.noConfusion h
  | cons p rest ih =>
    intro k v h
    obtain ⟨k0, v0⟩ := p
    by_cases hk : k = k0
    · rw [lookup_cons_eq v0 rest hk] at h
      injection h with h'
      subst hk
      rw [h']
      exact List.mem_cons_self _ _
    · rw [lookup_cons_ne v0 rest hk] at h
      exact List.mem_cons_of_mem _ (ih h)

/-- Members of an association update come from the map or are the new
pair. -/
theorem assocUpd_mem {α : Type} : ∀ (m : List (String × α)) (k : String) (v : α)
    (p : String × α), p ∈ assocUpd m k v → p ∈ m ∨ p = (k, v) := by
  intro m k v
  induction m with
  | nil =>
    intro p hp
    rw [List.mem_singleton.mp hp]
    exact Or.inr rfl
  | cons q rest ih =>
    intro p hp
    obtain ⟨k', v'⟩ := q
    unfold assocUpd at hp
    by_cases hk : k' = k
    · rw [if_pos hk] at hp
      rcases List.mem_cons.mp hp with rfl | hp'
      · exact Or.inr rfl
      · exact Or.inl (List.mem_cons_of_mem _ hp')
    · rw [if_neg hk] at hp
      rcases List.mem_cons.mp hp with rfl | hp'
      · exact Or.inl (List.mem_cons_self _ _)
      · rcases ih p hp' with h | h
        · exact Or.inl (List.mem_cons_of_mem _ h)
        · exact Or.inr h

/-- Keys after an association update come from the map or are the new
key. -/
theorem assocUpd_keys {α : Type} (m : List (String × α)) (k : String) (v : α)
    (a : String) (ha : a ∈ (assocUpd m k v).map Prod.fst) :
    a ∈ m.map Prod.fst ∨ a = k := by
  obtain ⟨p, hp, rfl⟩ := List.mem_map.mp ha
  rcases assocUpd_mem m k v p hp with h | rfl
  · exact Or.inl (List.mem_map.mpr ⟨p, h, rfl⟩)
  · exact Or.inr rfl

/-- An association update keeps the keys duplicate-free. -/
theorem assocUpd_keys_nodup {α : Type} : ∀ (m : List (String × α)) (k : String)
    (v : α), (m.map Prod.fst).Nodup → ((assocUpd m k v).map Prod.fst).Nodup := by
  intro m k v
  induction m with
  | nil =>
    intro _
    simp [assocUpd]
  | cons q rest ih =>
    obtain ⟨k', v'⟩ := q
    intro hm
    rw [List.map_cons, List.nodup_cons] at hm
    unfold assocUpd
    by_cases hk : k' = k
    · rw [if_pos hk, List.map_cons, List.nodup_cons]
      exact ⟨hk ▸ hm.1, hm.2⟩
    · rw [if_neg hk, List.map_cons, List.nodup_cons]
      refine ⟨?_, ih hm.2⟩
      intro hmem
      rcases assocUpd_keys rest k v k' hmem with h | h
      · exact hm.1 h
      · exact hk h

/-- A dedupe step preserves the invariant that every recorded pair maps a
non-empty key to an item carrying it as id. -/
theorem dedupeStep_good {m : List (String × Item)} {it : Item}
    (hm : ∀ p ∈ m, dget p.2 "id" = some (.str p.1) ∧ p.1 ≠ "") :
    ∀ p ∈ dedupeStep m it, dget p.2 "id" = some (.str p.1) ∧ p.1 ≠ "" := by
  intro p hp
  unfold dedupeStep at hp
  split at hp
  · rename_i s hs
    by_cases h0 : s = ""
    · rw [if_pos h0] at hp
      exact hm p hp
    · rw [if_neg h0] at hp
      split at hp
      · rcases assocUpd_mem m s it p hp with h | rfl
        · exact hm p h
        · exact ⟨hs, h0⟩
      · split at hp
        · rcases assocUpd_mem m s it p hp with h | rfl
          · exact hm p h
          · exact ⟨hs, h0⟩
        · exact hm p hp
  · exact hm p hp

/-- A dedupe step keeps the recorded keys duplicate-free. -/
theorem dedupeStep_keys_nodup {m : List (String × Item)} {it : Item}
    (hm : (m.map Prod.fst).Nodup) : ((dedupeStep m it).map Prod.fst).Nodup := by
  unfold dedupeStep
  split
  · rename_i s hs
    by_cases h0 : s = ""
    · rw [if_pos h0]
      exact hm
    · rw [if_neg h0]
      split
      · exact assocUpd_keys_nodup m s it hm
      · split
        · exact assocUpd_keys_nodup m s it hm
        · exact hm
  · exact hm

/-- The fold of dedupe steps preserves the key/id invariant. -/
theorem dedupeFold_good : ∀ (l : List Item) (m : List (String × Item)),
    (∀ p ∈ m, dget p.2 "id" = some (.str p.1) ∧ p.1 ≠ "") →
    ∀ p ∈ l.foldl dedupeStep m, dget p.2 "id" = some (.str p.1) ∧ p.1 ≠ "" := by
  intro l
  induction l with
  | nil =>
    intro m hm
    exact hm
  | cons x rest ih =>
    intro m hm
    exact ih _ (dedupeStep_good hm)

/-- The fold of dedupe steps keeps the keys duplicate-free. -/
theorem dedupeFold_keys_nodup : ∀ (l : List Item) (m : List (String × Item)),
    (m.map Prod.fst).Nodup → ((l.foldl dedupeStep m).map Prod.fst).Nodup := by
  intro l
  induction l with
  | nil =>
    intro m hm
    exact hm
  | cons x rest ih =>
    intro m hm
    exact ih _ (dedupeStep_keys_nodup hm)

/-- The stale dedupe always yields items with non-empty string ids,
pairwise distinct. -/
theorem dedupeStale_goodIds (stale : List Item) : goodIds (dedupeStale stale) := by
  unfold dedupeStale goodIds
  have hgood := dedupeFold_good stale [] (by intro p hp; cases hp)
  constructor
  · intro it hit
    obtain ⟨p, hp, rfl⟩ := List.mem_map.mp hit
    obtain ⟨hid, hne⟩ := hgood p hp
    exact ⟨p.1, hid, hne⟩
  · rw [List.map_map]
    have hcongr : ((stale.foldl dedupeStep []).map (itemId ∘ Prod.snd))
        = ((stale.foldl dedupeStep []).map Prod.fst) := by
      refine List.map_congr_left ?_
      intro p hp
      obtain ⟨hid, _⟩ := hgood p hp
      show itemId p.2 = p.1
      unfold itemId
      rw [hid]
    rw [hcongr]
    exact dedupeFold_keys_nodup stale [] (by simp)

/-- Recording an item with id `s` makes the lookup at `s` succeed. -/
theorem dedupeStep_lookup_isSome_self {s : String} {x : Item}
    (hid : dget x "id" = some (.str s)) (hs : s ≠ "")
    (m : List (String × Item)) : ((dedupeStep m x).lookup s).isSome = true := by
  unfold dedupeStep
  rw [hid]
  dsimp only
  rw [if_neg hs]
  cases hl : m.lookup s with
  | none =>
    dsimp only
    rw [lookup_assocUpd_self]
    rfl
  | some cur =>
    dsimp only
    split
    · rw [lookup_assocUpd_self]
      rfl
    · rw [hl]
      rfl

/-- A dedupe step never erases a recorded key. -/
theorem dedupeStep_lookup_isSome_mono {s : String} (m : List (String × Item))
    (x : Item) (h : (m.lookup s).isSome = true) :
    ((dedupeStep m x).lookup s).isSome = true := by
  unfold dedupeStep
  split
  · rename_i s' hs'
    by_cases h0 : s' = ""
    · rw [if_pos h0]
      exact h
    · rw [if_neg h0]
      by_cases hss : s = s'
      · subst hss
        cases hl : m.lookup s with
        | none =>
          rw [hl] at h
          exact Bool.noConfusion h
        | some cur =>
          dsimp only
          split
          · rw [lookup_assocUpd_self]
            rfl
          · rw [hl]
            rfl
      · cases hl : m.lookup s' with
        | none =>
          dsimp only
          rw [lookup_assocUpd_ne m x hss]
          exact h
        | some cur =>
          dsimp only
          split
          · rw [lookup_assocUpd_ne m x hss]
            exact h
          · exact h
  · exact h

/-- Folding the dedupe over a list containing the id `s` (or starting from
a map recording it) ends with `s` recorded. -/
theorem dedupe_id_cover {s : String} (hs : s ≠ "") :
    ∀ (l : List Item) (m : List (String × Item)),
      ((∃ y ∈ l, dget y "id" = some (.str s)) ∨ (m.lookup s).isSome = true) →
      ((l.foldl dedupeStep m).lookup s).isSome = true := by
  intro l
  induction l with
  | nil =>
    intro m h
    rcases h with ⟨y, hy, _⟩ | h
    · cases hy
    · exact h
  | cons x rest ih =>
    intro m h
    rcases h with ⟨y, hy, hid⟩ | hm
    · rcases List.mem_cons.mp hy with rfl | hy'
      · exact ih _ (Or.inr (dedupeStep_lookup_isSome_self hid hs _))
      · exact ih _ (Or.inl ⟨y, hy', hid⟩)
    · exact ih _ (Or.inr (dedupeStep_lookup_isSome_mono _ _ hm))

/-- Any id present in the pre-dedupe stale list survives the dedupe. -/
theorem dedupeStale_cover {s : String} (hs : s ≠ "") {l : List Item} {y : Item}
    (hy : y ∈ l) (hid : dget y "id" = some (.str s)) :
    ∃ z ∈ dedupeStale l, dget z "id" = some (.str s) := by
  have hsome := dedupe_id_cover hs l [] (Or.inl ⟨y, hy, hid⟩)
  cases he : (l.foldl dedupeStep []).lookup s with
  | none =>
    rw [he] at hsome
    exact Bool.noConfusion hsome
  | some e =>
    have hmem := lookup_mem he
    obtain ⟨hide, _⟩ := dedupeFold_good l [] (by intro p hp; cases hp) (s, e) hmem
    refine ⟨e, ?_, hide⟩
    unfold dedupeStale
    exact mem_values_of_lookup he

/-- Every proposal-half merge entry descends from a proposal item with the
same (non-empty) id and the same filter text. -/
theorem mergeProposed_elim (curIdx : List (String × Item)) :
    ∀ (ps : List Item) (x : Item), x ∈ mergeProposed curIdx ps →
      ∃ p ∈ ps, ∃ pid, dget x "id" = some (.str pid) ∧ pid ≠ ""
        ∧ dget p "id" = some (.str pid) ∧ stmtText x = stmtText p := by
  intro ps
  induction ps with
  | nil =>
    intro x hx
    simp only [mergeProposed] at hx
    cases hx
  | cons q rest ih =>
    intro x hx
    simp only [mergeProposed] at hx
    split at hx
    · rename_i pid hqid
      split at hx
      · obtain ⟨p, hp, rest'⟩ := ih x hx
        exact ⟨p, List.mem_cons_of_mem _ hp, rest'⟩
      · rename_i hpid
        rcases List.mem_cons.mp hx with rfl | hx'
        · refine ⟨q, List.mem_cons_self _ _, pid, ?_, hpid, hqid, ?_⟩
          · rw [dget_dset_ne _ _ (by decide), dget_dset_ne _ _ (by decide)]
            split
            · rw [dget_dset_ne _ _ (by decide)]
              exact hqid
            · exact hqid
          · rw [stmtText_dset_ne _ _ (by decide) (by decide),
              stmtText_dset_ne _ _ (by decide) (by decide)]
            split
            · rw [stmtText_dset_ne _ _ (by decide) (by decide)]
            · rfl
        · obtain ⟨p, hp, rest'⟩ := ih x hx'
          exact ⟨p, List.mem_cons_of_mem _ hp, rest'⟩
    · obtain ⟨p, hp, rest'⟩ := ih x hx
      exact ⟨p, List.mem_cons_of_mem _ hp, rest'⟩

/-- Every proposal item with a non-empty id yields a proposal-half merge
entry with the same id and text. -/
theorem mergeProposed_intro (curIdx : List (String × Item)) :
    ∀ (ps : List Item) (p : Item) (pid : String), p ∈ ps →
      dget p "id" = some (.str pid) → pid ≠ "" →
      ∃ x ∈ mergeProposed curIdx ps,
        dget x "id" = some (.str pid) ∧ stmtText x = stmtText p := by
  intro ps
  induction ps with
  | nil =>
    intro p pid hp
    cases hp
  | cons q rest ih =>
    intro p pid hp hpid hne
    rcases List.mem_cons.mp hp with rfl | hp'
    · simp only [mergeProposed]
      rw [hpid]
      dsimp only
      rw [if_neg hne]
      refine ⟨_, List.mem_cons_self _ _, ?_, ?_⟩
      · rw [dget_dset_ne _ _ (by decide), dget_dset_ne _ _ (by decide)]
        split
        · rw [dget_dset_ne _ _ (by decide)]
          exact hpid
        · exact hpid
      · rw [stmtText_dset_ne _ _ (by decide) (by decide),
          stmtText_dset_ne _ _ (by decide) (by decide)]
        split
        · rw [stmtText_dset_ne _ _ (by decide) (by decide)]
        · rfl
    · obtain ⟨x, hx, hxx⟩ := ih p pid hp' hpid hne
      simp only [mergeProposed]
      split
      · rename_i pid' hqid
        split
        · exact ⟨x, hx, hxx⟩
        · exact ⟨x, List.mem_cons_of_mem _ hx, hxx⟩
      · exact ⟨x, hx, hxx⟩

/-- A merged-list member either descends from a proposal item (same id and
text) or is a kept current item, marked unrefreshed, whose id misses the
proposal. -/
theorem merged_mem_elim (cur ps : List Item) (x : Item)
    (hx : x ∈ _merge_list cur ps) :
    (∃ p ∈ ps, ∃ pid, dget x "id" = some (.str pid) ∧ pid ≠ ""
        ∧ dget p "id" = some (.str pid) ∧ stmtText x = stmtText p)
    ∨ (∃ c ∈ cur, x = dset c "_refreshed" (.bool false)
        ∧ ∃ q, dget c "id" = some (.str q) ∧ q ≠ "" ∧ q ∉ proposedIds ps) := by
  unfold _merge_list at hx
  dsimp only at hx
  rcases List.mem_append.mp hx with hl | hr
  · exact Or.inl (mergeProposed_elim _ ps x hl)
  · right
    obtain ⟨c, hc, hfc⟩ := List.mem_filterMap.mp hr
    refine ⟨c, hc, ?_⟩
    cases hq : dget c "id"
    case none =>
      rw [hq] at hfc
      exact Option.noConfusion hfc
    case some v =>
      cases v
      case str q =>
        rw [hq] at hfc
        dsimp only at hfc
        by_cases hcnd : q = "" ∨ q ∈ proposedIds ps
        · rw [if_pos hcnd] at hfc
          exact Option.noConfusion hfc
        · rw [if_neg hcnd] at hfc
          injection hfc with h'
          exact ⟨h'.symm, q, rfl, fun h0 => hcnd (Or.inl h0),
            fun hm => hcnd (Or.inr hm)⟩
      all_goals (rw [hq] at hfc; exact Option.noConfusion hfc)

/-- A `process_item` call that returns without error on text clearing the
filter does not drop the item. -/
theorem process_item_not_dropped {fs : FS} {workspace : String} {now_dt : DateTime}
    {dns : List Item} {vs : Bool} {sec : String} {ttl : Int} {it : Item}
    {o : Option Item}
    (h : process_item fs workspace now_dt dns vs sec ttl it = .ok o)
    (hdns : matches_do_not_store (stmtText it) dns = Option.none) :
    ∃ out, o = some out := by
  unfold process_item at h
  split at h
  · rename_i w hw
    rw [hdns] at hw
    exact Option.noConfusion hw
  · dsimp only at h
    split at h
    · exact Except.noConfusion h
    · injection h with h'
      exact ⟨_, h'.symm⟩

/-- An id-preserving `filterMap` shrinks the id list to a sublist. -/
theorem filterMap_itemId_sublist (f : Item → Option Item)
    (hf : ∀ x y, f x = some y → itemId y = itemId x) :
    ∀ items : List Item,
      ((items.filterMap f).map itemId).Sublist (items.map itemId) := by
  intro items
  induction items with
  | nil => exact List.Sublist.refl _
  | cons x rest ih =>
    rw [List.filterMap_cons]
    cases hfx : f x with
    | none =>
      rw [List.map_cons]
      exact ih.trans (List.sublist_cons_self _ _)
    | some y =>
      rw [List.map_cons, List.map_cons, hf x y hfx]
      exact ih.cons₂ _

/-- A processed section's ids form a sublist of the input ids. -/
theorem processed_itemIds_sublist {fs : FS} {workspace : String} {now_dt : DateTime}
    {dns : List Item} {vs : Bool} {sec : String} {ttl : Int}
    {items outs : List Item}
    (h : process_section fs workspace now_dt dns vs sec ttl items = .ok outs) :
    (outs.map itemId).Sublist (items.map itemId) := by
  obtain ⟨houts, -⟩ := process_section_ok_elim h
  rw [houts]
  exact filterMap_itemId_sublist _ (fun x y hxy => by
    unfold itemId
    rw [(process_item_some (process_pure_some hxy)).2.2]) items

/-- An item that survived a processed merge clears the filter, and when its
id is claimed by the proposal, some proposal item carries that id with the
same text. -/
theorem section_prev_good {fs : FS} {workspace : String} {now_dt : DateTime}
    {dns : List Item} {vs : Bool} {sec : String} {ttl : Int}
    {cur0 ps outs1 : List Item}
    (h1 : process_section fs workspace now_dt dns vs sec ttl
      (_merge_list cur0 ps) = .ok outs1)
    {y : Item} (hy : y ∈ outs1) {s : String} (hid : dget y "id" = some (.str s))
    (hs : s ≠ "") :
    matches_do_not_store (stmtText y) dns = Option.none
    ∧ (s ∈ proposedIds ps →
        ∃ p ∈ ps, dget p "id" = some (.str s) ∧ stmtText p = stmtText y) := by
  obtain ⟨houts, hall⟩ := process_section_ok_elim h1
  refine ⟨processed_mem_dns h1 y hy, ?_⟩
  intro hmem
  rw [houts] at hy
  obtain ⟨x, hxm, hxpure⟩ := List.mem_filterMap.mp hy
  have hsome := process_item_some (process_pure_some hxpure)
  rcases merged_mem_elim cur0 ps x hxm with
    ⟨p, hp, pid, hxid, hpidne, hpid, htext⟩ | ⟨c, hc, hxeq, q, hcid, hq, hnp⟩
  · have heq : some (Value.str pid) = some (Value.str s) := by
      rw [← hxid, ← hsome.2.2, hid]
    injection heq with h'
    injection h' with h''
    subst h''
    exact ⟨p, hp, hpid, (hsome.2.1.trans htext).symm⟩
  · exfalso
    have hxid : dget x "id" = some (.str q) := by
      rw [hxeq, dget_dset_ne _ _ (by decide), hcid]
    have heq : some (Value.str q) = some (Value.str s) := by
      rw [← hxid, ← hsome.2.2, hid]
    injection heq with h'
    injection h' with h''
    exact hnp (h'' ▸ hmem)

/-- Re-merging the same proposal re-produces the id of every surviving
current item in the processed section output. -/
theorem section_round_trip {fs : FS} {workspace : String} {now_dt : DateTime}
    {dns : List Item} {vs : Bool} {sec : String} {ttl : Int}
    {cur ps outs : List Item}
    (h : process_section fs workspace now_dt dns vs sec ttl
      (_merge_list cur ps) = .ok outs)
    {y : Item} {s : String} (hy : y ∈ cur) (hid : dget y "id" = some (.str s))
    (hs : s ≠ "") (hdns : matches_do_not_store (stmtText y) dns = Option.none)
    (hpids : s ∈ proposedIds ps →
      ∃ p ∈ ps, dget p "id" = some (.str s) ∧ stmtText p = stmtText y) :
    ∃ out ∈ outs, dget out "id" = some (.str s) := by
  obtain ⟨houts, hall⟩ := process_section_ok_elim h
  by_cases hmem : s ∈ proposedIds ps
  · obtain ⟨p, hpp, hpid, hptext⟩ := hpids hmem
    obtain ⟨x, hx, hxid, hxtext⟩ :=
      mergeProposed_intro (index_by_id cur) ps p s hpp hpid hs
    have hxm : x ∈ _merge_list cur ps := by
      unfold _merge_list
      dsimp only
      exact List.mem_append.mpr (Or.inl hx)
    obtain ⟨o, ho, hpure⟩ := hall x hxm
    have hxdns : matches_do_not_store (stmtText x) dns = Option.none := by
      rw [hxtext, hptext]
      exact hdns
    obtain ⟨out, rfl⟩ := process_item_not_dropped ho hxdns
    refine ⟨out, ?_, ?_⟩
    · rw [houts]
      exact List.mem_filterMap.mpr ⟨x, hxm, hpure⟩
    · rw [(process_item_some ho).2.2, hxid]
  · have hxm := merge_list_kept cur ps y s hy hid hs hmem
    obtain ⟨o, ho, hpure⟩ := hall _ hxm
    have hxdns : matches_do_not_store
        (stmtText (dset y "_refreshed" (.bool false))) dns = Option.none := by
      rw [stmtText_dset_ne _ _ (by decide) (by decide)]
      exact hdns
    obtain ⟨out, rfl⟩ := process_item_not_dropped ho hxdns
    refine ⟨out, ?_, ?_⟩
    · rw [houts]
      exact List.mem_filterMap.mpr ⟨_, hxm, hpure⟩
    · rw [(process_item_some ho).2.2, dget_dset_ne _ _ (by decide), hid]

/-- Every section item either stays after decay or contributes a stale
entry with its id. -/
theorem decay_cover {now_dt : DateTime} {l : List Item} {x : Item} (hx : x ∈ l) :
    x ∈ decayKeep now_dt l
      ∨ ∃ z ∈ staleAdds now_dt l, dget z "id" = dget x "id" := by
  by_cases hr : statusIs x "retracted" = true
  · right
    refine ⟨dset x "status" (.str "retracted"), ?_, dget_dset_ne _ _ (by decide)⟩
    unfold staleAdds
    refine List.mem_filterMap.mpr ⟨x, hx, ?_⟩
    rw [if_pos hr]
  · by_cases he : is_expired now_dt x = true
    · right
      refine ⟨staleVersion x, ?_, staleVersion_id x⟩
      unfold staleAdds
      refine List.mem_filterMap.mpr ⟨x, hx, ?_⟩
      rw [if_neg hr, if_pos he]
    · left
      unfold decayKeep
      refine List.mem_filter.mpr ⟨hx, ?_⟩
      simp [hr, he]

/-- Introduce `idOccurs` from a member of one of the five sections. -/
theorem idOccurs_intro {m : Model} {s : String} {z : Item}
    (hz : z ∈ m.confirmed_facts ∨ z ∈ m.hypotheses ∨ z ∈ m.open_loops
      ∨ z ∈ m.candidate_moves ∨ z ∈ m.stale_items)
    (hid : dget z "id" = some (.str s)) : idOccurs m s := by
  unfold idOccurs
  refine List.mem_map.mpr ⟨z, ?_, itemId_of_dget hid⟩
  rcases hz with h | h | h | h | h
  · exact List.mem_append.mpr (Or.inl (List.mem_append.mpr (Or.inl
      (List.mem_append.mpr (Or.inl (List.mem_append.mpr (Or.inl h)))))))
  · exact List.mem_append.mpr (Or.inl (List.mem_append.mpr (Or.inl
      (List.mem_append.mpr (Or.inl (List.mem_append.mpr (Or.inr h)))))))
  · exact List.mem_append.mpr (Or.inl (List.mem_append.mpr (Or.inl
      (List.mem_append.mpr (Or.inr h)))))
  · exact List.mem_append.mpr (Or.inl (List.mem_append.mpr (Or.inr h)))
  · exact List.mem_append.mpr (Or.inr h)

/-- Eliminate a non-empty occurring id to a member of one of the five
sections carrying it. -/
theorem idOccurs_elim {m : Model} {s : String} (h : idOccurs m s) (hs : s ≠ "") :
    ∃ y, dget y "id" = some (.str s)
      ∧ (y ∈ m.confirmed_facts ∨ y ∈ m.hypotheses ∨ y ∈ m.open_loops
        ∨ y ∈ m.candidate_moves ∨ y ∈ m.stale_items) := by
  unfold idOccurs at h
  obtain ⟨y, hym, hyid⟩ := List.mem_map.mp h
  refine ⟨y, itemId_eq_of_ne hyid hs, ?_⟩
  rcases List.mem_append.mp hym with h4 | hst
  · rcases List.mem_append.mp h4 with h3 | hcm
    · rcases List.mem_append.mp h3 with h2 | hol
      · rcases List.mem_append.mp h2 with hcf | hhy
        · exact Or.inl hcf
        · exact Or.inr (Or.inl hhy)
      · exact Or.inr (Or.inr (Or.inl hol))
    · exact Or.inr (Or.inr (Or.inr (Or.inl hcm)))
  · exact Or.inr (Or.inr (Or.inr (Or.inr hst)))

/-- The proposal half of a merge lists exactly the proposal's non-empty
ids, in order. -/
theorem mergeProposed_itemIds (curIdx : List (String × Item)) :
    ∀ ps : List Item, (mergeProposed curIdx ps).map itemId
      = (ps.map itemId).filter (fun s => !(s == "")) := by
  intro ps
  induction ps with
  | nil => rfl
  | cons p rest ih =>
    simp only [mergeProposed]
    rw [List.map_cons, List.filter_cons]
    cases hid : dget p "id"
    case none =>
      have hci : itemId p = "" := by
        unfold itemId
        rw [hid]
      rw [hci]
      simp [ih]
    case some v =>
      cases v
      case str s =>
        have hci : itemId p = s := by
          unfold itemId
          rw [hid]
        rw [hci]
        dsimp only
        by_cases hs : s = ""
        · rw [if_pos hs]
          simp [hs, ih]
        · rw [if_neg hs]
          rw [List.map_cons, itemId_dset_ne _ _ (by decide),
            itemId_dset_ne _ _ (by decide), ih,
            if_pos (show (!(s == "")) = true by simp [hs])]
          congr 1
          split
          · rw [itemId_dset_ne _ _ (by decide)]
            exact hci
          · exact hci
      all_goals (
        have hci : itemId p = "" := by
          unfold itemId
          rw [hid]
        rw [hci]
        simp [ih])

/-- The kept half of a merge lists exactly the current non-empty ids not
claimed by the proposal, in order. -/
theorem kept_itemIds (pids : List String) :
    ∀ cur : List Item,
      ((cur.filterMap (fun it =>
          match dget it "id" with
          | some (.str s) =>
            if s = "" ∨ s ∈ pids then Option.none
            else some (dset it "_refreshed" (.bool false))
          | _ => Option.none)).map itemId)
        = (cur.map itemId).filter (fun s => decide ¬(s = "" ∨ s ∈ pids)) := by
  intro cur
  induction cur with
  | nil => rfl
  | cons c rest ih =>
    rw [List.filterMap_cons, List.map_cons, List.filter_cons]
    cases hid : dget c "id"
    case none =>
      have hci : itemId c = "" := by
        unfold itemId
        rw [hid]
      rw [hci]
      simp [ih]
    case some v =>
      cases v
      case str s =>
        have hci : itemId c = s := by
          unfold itemId
          rw [hid]
        rw [hci]
        dsimp only
        by_cases hc : s = "" ∨ s ∈ pids
        · rw [if_pos hc]
          simp [hc, ih]
        · rw [if_neg hc]
          rw [List.map_cons, itemId_dset_ne _ _ (by decide), hci, ih,
            if_pos (by simp [hc])]
      all_goals (
        have hci : itemId c = "" := by
          unfold itemId
          rw [hid]
        rw [hci]
        simp [ih])

/-- The merged list's ids: the proposal's non-empty ids followed by the
unclaimed current ids. -/
theorem merge_list_itemIds (cur ps : List Item) :
    (_merge_list cur ps).map itemId
      = ((ps.map itemId).filter (fun s => !(s == "")))
        ++ ((cur.map itemId).filter
            (fun s => decide ¬(s = "" ∨ s ∈ proposedIds ps))) := by
  unfold _merge_list
  dsimp only
  rw [List.map_append, mergeProposed_itemIds, kept_itemIds]

/-- Merging preserves id-uniqueness: duplicate-free current and proposal
ids give a duplicate-free merged list. -/
theorem merge_list_nodup (cur ps : List Item)
    (hcur : (cur.map itemId).Nodup) (hps : (ps.map itemId).Nodup) :
    ((_merge_list cur ps).map itemId).Nodup := by
  rw [merge_list_itemIds]
  refine List.Nodup.append (hps.filter _) (hcur.filter _) ?_
  intro a ha hb
  have ha' := List.mem_filter.mp ha
  have hb' := List.mem_filter.mp hb
  have hane : a ≠ "" := by
    intro h0
    rw [h0] at ha'
    simp at ha'
  have hnb := of_decide_eq_true hb'.2
  apply hnb
  right
  obtain ⟨p, hp, hpe⟩ := List.mem_map.mp ha'.1
  have hpid := itemId_eq_of_ne hpe hane
  unfold proposedIds
  refine List.mem_filterMap.mpr ⟨p, hp, ?_⟩
  rw [hpid]

/-- The decayed kept part's ids form a sublist of the section's ids. -/
theorem decayKeep_itemIds_sublist (now_dt : DateTime) (l : List Item) :
    ((decayKeep now_dt l).map itemId).Sublist (l.map itemId) := by
  unfold decayKeep
  exact List.Sublist.map _ (List.filter_sublist _)

/-- First component of the decay pass. -/
theorem decay_pass_fst (now_dt : DateTime) (hy ol cm st : List Item) :
    (decay_pass now_dt hy ol cm st).1 = decayKeep now_dt hy := by
  rw [decay_pass_eq]

/-- Second component of the decay pass. -/
theorem decay_pass_snd1 (now_dt : DateTime) (hy ol cm st : List Item) :
    (decay_pass now_dt hy ol cm st).2.1 = decayKeep now_dt ol := by
  rw [decay_pass_eq]

/-- Third component of the decay pass. -/
theorem decay_pass_snd2 (now_dt : DateTime) (hy ol cm st : List Item) :
    (decay_pass now_dt hy ol cm st).2.2.1 = decayKeep now_dt cm := by
  rw [decay_pass_eq]

/-- Stale component of the decay pass. -/
theorem decay_pass_stale (now_dt : DateTime) (hy ol cm st : List Item) :
    (decay_pass now_dt hy ol cm st).2.2.2
      = dedupeStale (st ++ staleAdds now_dt hy ++ staleAdds now_dt ol
          ++ staleAdds now_dt cm) := by
  rw [decay_pass_eq]

/-- **C9** (confirmed).  Merging the same unchanged proposal twice in
succession never loses an item: every non-empty id occurring anywhere in
the first merge's persisted model still occurs in the second merge's.
And each merge preserves id-uniqueness per section: duplicate-free ids in
the previous model's and the proposal's sections give duplicate-free ids
in the persisted active sections, while the deduped `stale_items` are
always duplicate-free. -/
theorem C9_round_trip (fs : FS) (workspace : String) (now1 now2 : DateTime)
    (scope : String) (m0 m1 m2 : Model) (P : Proposal) (vs : Bool)
    (h1 : buildModel fs workspace now1 scope (some m0) P vs = .ok m1)
    (h2 : buildModel fs workspace now2 scope (some m1) P vs = .ok m2) :
    (∀ s, s ≠ "" → idOccurs m1 s → idOccurs m2 s)
    ∧ ((P.confirmed_facts.map itemId).Nodup → (m0.confirmed_facts.map itemId).Nodup →
        (m1.confirmed_facts.map itemId).Nodup)
    ∧ ((P.hypotheses.map itemId).Nodup → (m0.hypotheses.map itemId).Nodup →
        (m1.hypotheses.map itemId).Nodup)
    ∧ ((P.open_loops.map itemId).Nodup → (m0.open_loops.map itemId).Nodup →
        (m1.open_loops.map itemId).Nodup)
    ∧ ((P.candidate_moves.map itemId).Nodup → (m0.candidate_moves.map itemId).Nodup →
        (m1.candidate_moves.map itemId).Nodup)
    ∧ (m1.stale_items.map itemId).Nodup := by
  obtain ⟨cf1, hy1, ol1, cm1, hcf1, hhy1, hol1, hcm1, hm1⟩ := buildModel_ok_elim h1
  obtain ⟨cf2, hy2, ol2, cm2, hcf2, hhy2, hol2, hcm2, hm2⟩ := buildModel_ok_elim h2
  subst hm1
  subst hm2
  simp only [Option.getD_some] at hcf1 hhy1 hol1 hcm1 hcf2 hhy2 hol2 hcm2
  refine ⟨?_, ?_, ?_, ?_, ?_, ?_⟩
  · intro s hs hocc
    obtain ⟨y, hyid, hysec⟩ := idOccurs_elim hocc hs
    rcases hysec with hcf | hhy | hol | hcm | hst
    · have hyP : y ∈ cf1 := hcf
      obtain ⟨hdns, hpids⟩ := section_prev_good hcf1 hyP hyid hs
      obtain ⟨out, hout, houtid⟩ := section_round_trip hcf2 hcf hyid hs hdns hpids
      exact idOccurs_intro (Or.inl hout) houtid
    · have hyd : y ∈ (decay_pass now1 hy1 ol1 cm1 m0.stale_items).1 := hhy
      rw [decay_pass_fst] at hyd
      obtain ⟨hdns, hpids⟩ := section_prev_good hhy1 (mem_decayKeep hyd) hyid hs
      obtain ⟨out, hout, houtid⟩ := section_round_trip hhy2 hhy hyid hs hdns hpids
      rcases @decay_cover now2 _ _ hout with hkeep | ⟨z, hz, hzid⟩
      · have hmem2 : out ∈ (decay_pass now2 hy2 ol2 cm2
            ((decay_pass now1 hy1 ol1 cm1 m0.stale_items).2.2.2)).1 := by
          rw [decay_pass_fst]
          exact hkeep
        exact idOccurs_intro (Or.inr (Or.inl hmem2)) houtid
      · have hzid' : dget z "id" = some (.str s) := by
          rw [hzid, houtid]
        have hzcat : z ∈ ((decay_pass now1 hy1 ol1 cm1 m0.stale_items).2.2.2
            ++ staleAdds now2 hy2 ++ staleAdds now2 ol2 ++ staleAdds now2 cm2) :=
          List.mem_append.mpr (Or.inl (List.mem_append.mpr (Or.inl
            (List.mem_append.mpr (Or.inr hz)))))
        obtain ⟨w, hw, hwid⟩ := dedupeStale_cover hs hzcat hzid'
        have hw2 : w ∈ (decay_pass now2 hy2 ol2 cm2
            ((decay_pass now1 hy1 ol1 cm1 m0.stale_items).2.2.2)).2.2.2 := by
          rw [decay_pass_stale]
          exact hw
        exact idOccurs_intro (Or.inr (Or.inr (Or.inr (Or.inr hw2)))) hwid
    · have hyd : y ∈ (decay_pass now1 hy1 ol1 cm1 m0.stale_items).2.1 := hol
      rw [decay_pass_snd1] at hyd
      obtain ⟨hdns, hpids⟩ := section_prev_good hol1 (mem_decayKeep hyd) hyid hs
      obtain ⟨out, hout, houtid⟩ := section_round_trip hol2 hol hyid hs hdns hpids
      rcases @decay_cover now2 _ _ hout with hkeep | ⟨z, hz, hzid⟩
      · have hmem2 : out ∈ (decay_pass now2 hy2 ol2 cm2
            ((decay_pass now1 hy1 ol1 cm1 m0.stale_items).2.2.2)).2.1 := by
          rw [decay_pass_snd1]
          exact hkeep
        exact idOccurs_intro (Or.inr (Or.inr (Or.inl hmem2))) houtid
      · have hzid' : dget z "id" = some (.str s) := by
          rw [hzid, houtid]
        have hzcat : z ∈ ((decay_pass now1 hy1 ol1 cm1 m0.stale_items).2.2.2
            ++ staleAdds now2 hy2 ++ staleAdds now2 ol2 ++ staleAdds now2 cm2) :=
          List.mem_append.mpr (Or.inl (List.mem_append.mpr (Or.inr hz)))
        obtain ⟨w, hw, hwid⟩ := dedupeStale_cover hs hzcat hzid'
        have hw2 : w ∈ (decay_pass now2 hy2 ol2 cm2
            ((decay_pass now1 hy1 ol1 cm1 m0.stale_items).2.2.2)).2.2.2 := by
          rw [decay_pass_stale]
          exact hw
        exact idOccurs_intro (Or.inr (Or.inr (Or.inr (Or.inr hw2)))) hwid
    · have hyd : y ∈ (decay_pass now1 hy1 ol1 cm1 m0.stale_items).2.2.1 := hcm
      rw [decay_pass_snd2] at hyd
      obtain ⟨hdns, hpids⟩ := section_prev_good hcm1 (mem_decayKeep hyd) hyid hs
      obtain ⟨out, hout, houtid⟩ := section_round_trip hcm2 hcm hyid hs hdns hpids
      rcases @decay_cover now2 _ _ hout with hkeep | ⟨z, hz, hzid⟩
      · have hmem2 : out ∈ (decay_pass now2 hy2 ol2 cm2
            ((decay_pass now1 hy1 ol1 cm1 m0.stale_items).2.2.2)).2.2.1 := by
          rw [decay_pass_snd2]
          exact hkeep
        exact idOccurs_intro (Or.inr (Or.inr (Or.inr (Or.inl hmem2)))) houtid
      · have hzid' : dget z "id" = some (.str s) := by
          rw [hzid, houtid]
        have hzcat : z ∈ ((decay_pass now1 hy1 ol1 cm1 m0.stale_items).2.2.2
            ++ staleAdds now2 hy2 ++ staleAdds now2 ol2 ++ staleAdds now2 cm2) :=
          List.mem_append.mpr (Or.inr hz)
        obtain ⟨w, hw, hwid⟩ := dedupeStale_cover hs hzcat hzid'
        have hw2 : w ∈ (decay_pass now2 hy2 ol2 cm2
            ((decay_pass now1 hy1 ol1 cm1 m0.stale_items).2.2.2)).2.2.2 := by
          rw [decay_pass_stale]
          exact hw
        exact idOccurs_intro (Or.inr (Or.inr (Or.inr (Or.inr hw2)))) hwid
    · have hyst : y ∈ (decay_pass now1 hy1 ol1 cm1 m0.stale_items).2.2.2 := hst
      have hycat : y ∈ ((decay_pass now1 hy1 ol1 cm1 m0.stale_items).2.2.2
          ++ staleAdds now2 hy2 ++ staleAdds now2 ol2 ++ staleAdds now2 cm2) :=
        List.mem_append.mpr (Or.inl (List.mem_append.mpr (Or.inl
          (List.mem_append.mpr (Or.inl hyst)))))
      obtain ⟨w, hw, hwid⟩ := dedupeStale_cover hs hycat hyid
      have hw2 : w ∈ (decay_pass now2 hy2 ol2 cm2
          ((decay_pass now1 hy1 ol1 cm1 m0.stale_items).2.2.2)).2.2.2 := by
        rw [decay_pass_stale]
        exact hw
      exact idOccurs_intro (Or.inr (Or.inr (Or.inr (Or.inr hw2)))) hwid
  · intro hP hm0c
    exact List.Nodup.sublist (processed_itemIds_sublist hcf1)
      (merge_list_nodup _ _ hm0c hP)
  · intro hP hm0c
    have hsub : (((decay_pass now1 hy1 ol1 cm1 m0.stale_items).1).map itemId).Sublist
        ((_merge_list m0.hypotheses P.hypotheses).map itemId) := by
      rw [decay_pass_fst]
      exact (decayKeep_itemIds_sublist now1 hy1).trans (processed_itemIds_sublist hhy1)
    exact List.Nodup.sublist hsub (merge_list_nodup _ _ hm0c hP)
  · intro hP hm0c
    have hsub : (((decay_pass now1 hy1 ol1 cm1 m0.stale_items).2.1).map itemId).Sublist
        ((_merge_list m0.open_loops P.open_loops).map itemId) := by
      rw [decay_pass_snd1]
      exact (decayKeep_itemIds_sublist now1 ol1).trans (processed_itemIds_sublist hol1)
    exact List.Nodup.sublist hsub (merge_list_nodup _ _ hm0c hP)
  · intro hP hm0c
    have hsub : (((decay_pass now1 hy1 ol1 cm1 m0.stale_items).2.2.1).map itemId).Sublist
        ((_merge_list m0.candidate_moves P.candidate_moves).map itemId) := by
      rw [decay_pass_snd2]
      exact (decayKeep_itemIds_sublist now1 cm1).trans (processed_itemIds_sublist hcm1)
    exact List.Nodup.sublist hsub (merge_list_nodup _ _ hm0c hP)
  · have hnod := (dedupeStale_goodIds (m0.stale_items ++ staleAdds now1 hy1
      ++ staleAdds now1 ol1 ++ staleAdds now1 cm1)).2
    have hgoal : (((decay_pass now1 hy1 ol1 cm1 m0.stale_items).2.2.2).map
        itemId).Nodup := by
      rw [decay_pass_stale]
      exact hnod
    exact hgoal

/-- Witness for C9: merging `emptyProposal` into the one-hypothesis model
`c9_m0` twice, both merges succeeding with persisted model `c9_m1`. -/
theorem C9_round_trip_witness :
    ((∀ s, s ≠ "" → idOccurs c9_m1 s → idOccurs c9_m1 s)
      ∧ ((emptyProposal.confirmed_facts.map itemId).Nodup →
          (c9_m0.confirmed_facts.map itemId).Nodup →
          (c9_m1.confirmed_facts.map itemId).Nodup)
      ∧ ((emptyProposal.hypotheses.map itemId).Nodup →
          (c9_m0.hypotheses.map itemId).Nodup →
          (c9_m1.hypotheses.map itemId).Nodup)
      ∧ ((emptyProposal.open_loops.map itemId).Nodup →
          (c9_m0.open_loops.map itemId).Nodup →
          (c9_m1.open_loops.map itemId).Nodup)
      ∧ ((emptyProposal.candidate_moves.map itemId).Nodup →
          (c9_m0.candidate_moves.map itemId).Nodup →
          (c9_m1.candidate_moves.map itemId).Nodup)
      ∧ (c9_m1.stale_items.map itemId).Nodup) :=
  C9_round_trip [] "/ws" tNow tNow "s" c9_m0 c9_m1 c9_m1 emptyProposal true rfl rfl

end ConnectDots
